/-
Verification of the music-arrangement compilation pipeline
(`chuk_mcp_music`): music-theory primitives, harmony-aware pattern
compiler, arrangement orchestrator, Score IR and binary codec.

Shallow embedding conventions:
  * Python `int` is `ℤ`; Python `Fraction` (and the exact values of the
    floats appearing in the pipeline) is `ℚ`.
  * Python strings are `List Char` (`PyStr`); `String.data` bridges.
  * Python `int(x)` on a number truncates toward zero (`pyInt`);
    `//` and `%` on a positive divisor match `Int` `/` and `%`.
  * A Python function that can raise is modelled in `Option`
    (`none` = an exception escaped).
  * Python `sorted` is specified as a stable sort; it is modelled by
    `List.insertionSort` (stable) over the lexicographic order on the
    extracted `List ℤ` sort key (`pySorted`).
-/

import Mathlib

namespace MusicSpec

/-! ## Python-style helpers -/

/-- Python strings, modelled as their character lists. -/
abbrev PyStr := List Char

/-- A dynamically-typed Python value as it appears in pattern event
fields and parameter maps: a number, a string, or `None`. -/
inductive PyVal where
  | num (q : ℚ)
  | str (s : PyStr)
  | none
deriving DecidableEq, Repr

/-- Python `int(q)` on a number: truncation toward zero. -/
def pyInt (q : ℚ) : ℤ :=
  if 0 ≤ q then ⌊q⌋ else -⌊-q⌋

/-- Lexicographic order on integer lists, used as the universal sort
key for modelling Python tuple/str comparison: a strict prefix is
smaller, as in Python. -/
def lexLe : List ℤ → List ℤ → Prop
  | [], _ => True
  | _ :: _, [] => False
  | a :: as, b :: bs => a < b ∨ (a = b ∧ lexLe as bs)

instance instDecidableLexLe : ∀ as bs, Decidable (lexLe as bs)
  | [], _ => isTrue trivial
  | _ :: _, [] => isFalse (fun h => h)
  | a :: as, b :: bs =>
    haveI : Decidable (lexLe as bs) := instDecidableLexLe as bs
    inferInstanceAs (Decidable (_ ∨ _))

theorem lexLe_trans : ∀ {as bs cs : List ℤ}, lexLe as bs → lexLe bs cs → lexLe as cs
  | [], _, _, _, _ => trivial
  | _ :: _, [], _, h, _ => absurd h (fun h => h)
  | _ :: _, _ :: _, [], _, h => absurd h (fun h => h)
  | a :: as, b :: bs, c :: cs, h₁, h₂ => by
    rcases h₁ with h₁ | ⟨rfl, h₁⟩ <;> rcases h₂ with h₂ | ⟨rfl, h₂⟩
    · exact Or.inl (h₁.trans h₂)
    · exact Or.inl h₁
    · exact Or.inl h₂
    · exact Or.inr ⟨rfl, lexLe_trans h₁ h₂⟩

theorem lexLe_total : ∀ as bs : List ℤ, lexLe as bs ∨ lexLe bs as
  | [], _ => Or.inl trivial
  | _ :: _, [] => Or.inr trivial
  | a :: as, b :: bs => by
    rcases lt_trichotomy a b with h | rfl | h
    · exact Or.inl (Or.inl h)
    · exact (lexLe_total as bs).imp (fun h => Or.inr ⟨rfl, h⟩) (fun h => Or.inr ⟨rfl, h⟩)
    · exact Or.inr (Or.inl h)

theorem lexLe_refl (as : List ℤ) : lexLe as as := by
  induction as with
  | nil => trivial
  | cons a as ih => exact Or.inr ⟨rfl, ih⟩

/-- Python `sorted(xs, key=k)`: a stable sort by the extracted key.
`List.insertionSort` is stable, so it realises the specification. -/
def pySorted (k : α → List ℤ) (l : List α) : List α :=
  List.insertionSort (fun a b => lexLe (k a) (k b)) l

theorem pySorted_sorted (k : α → List ℤ) (l : List α) :
    (pySorted k l).Pairwise (fun a b => lexLe (k a) (k b)) := by
  haveI : IsTotal α (fun a b => lexLe (k a) (k b)) := ⟨fun a b => lexLe_total (k a) (k b)⟩
  haveI : IsTrans α (fun a b => lexLe (k a) (k b)) := ⟨fun _ _ _ => lexLe_trans⟩
  exact List.sorted_insertionSort _ l

theorem pySorted_perm (k : α → List ℤ) (l : List α) : (pySorted k l).Perm l :=
  List.perm_insertionSort _ l

theorem pySorted_eq_self (k : α → List ℤ) {l : List α}
    (h : l.Pairwise (fun a b => lexLe (k a) (k b))) : pySorted k l = l :=
  List.Sorted.insertionSort_eq h

theorem pySorted_idem (k : α → List ℤ) (l : List α) :
    pySorted k (pySorted k l) = pySorted k l :=
  pySorted_eq_self k (pySorted_sorted k l)

/-- Elements skipped by `orderedInsert` have strictly smaller keys, so a
filter that keeps exactly one key value commutes with the insertion. -/
theorem filter_orderedInsert_of_key (k : α → List ℤ) (v : List ℤ) (a : α) :
    ∀ l : List α,
      (List.orderedInsert (fun a b => lexLe (k a) (k b)) a l).filter
          (fun x => decide (k x = v)) =
        if k a = v then a :: l.filter (fun x => decide (k x = v))
        else l.filter (fun x => decide (k x = v)) := by
  intro l
  induction l with
  | nil =>
    by_cases h : k a = v <;> simp [List.orderedInsert, List.filter, h]
  | cons b l ih =>
    by_cases hab : lexLe (k a) (k b)
    · rw [List.orderedInsert, if_pos hab]
      by_cases h : k a = v
      · rw [List.filter_cons_of_pos (by simp [h]), if_pos h]
      · rw [List.filter_cons_of_neg (by simp [h]), if_neg h]
    · rw [List.orderedInsert, if_neg hab]
      have hb : k a = v → ¬ (k b = v) := by
        intro ha hbv
        exact hab (ha ▸ hbv ▸ lexLe_refl (k b))
      by_cases h : k a = v
      · rw [List.filter_cons_of_neg (by simp [hb h]), ih, if_pos h, if_pos h,
          List.filter_cons_of_neg (by simp [hb h])]
      · by_cases hkb : k b = v
        · rw [List.filter_cons_of_pos (by simp [hkb]), ih, if_neg h, if_neg h,
            List.filter_cons_of_pos (by simp [hkb])]
        · rw [List.filter_cons_of_neg (by simp [hkb]), ih, if_neg h, if_neg h,
            List.filter_cons_of_neg (by simp [hkb])]

/-- Stability of `pySorted`: for each key value, the subsequence of
elements carrying that key is unchanged. -/
theorem pySorted_stable (k : α → List ℤ) (l : List α) (v : List ℤ) :
    (pySorted k l).filter (fun x => decide (k x = v)) =
      l.filter (fun x => decide (k x = v)) := by
  induction l with
  | nil => rfl
  | cons a l ih =>
    show (List.orderedInsert _ a (pySorted k l)).filter _ = _
    rw [filter_orderedInsert_of_key k v a (pySorted k l)]
    by_cases h : k a = v <;> simp [List.filter_cons, h, ih]

/-! ## Decimal rendering and Python `int(str)` parsing -/

/-- The decimal digit character for `d < 10`. -/
def digitChar (d : ℕ) : Char := Char.ofNat (48 + d)

/-- Most-significant-first decimal digits of a natural number. -/
def natDigits (n : ℕ) : List Char :=
  if h : n < 10 then [digitChar n]
  else natDigits (n / 10) ++ [digitChar (n % 10)]
termination_by n
decreasing_by exact Nat.div_lt_self (by omega) (by omega)

/-- Canonical decimal rendering of an integer, as produced by Python
`str(n)`. -/
def decimalRepr (n : ℤ) : PyStr :=
  if n < 0 then '-' :: natDigits (-n).toNat else natDigits n.toNat

def isDigitChar (c : Char) : Bool := decide ('0' ≤ c) && decide (c ≤ '9')

def digitVal (c : Char) : ℕ := c.toNat - 48

def digitsVal (ds : List Char) : ℕ := ds.foldl (fun acc c => 10 * acc + digitVal c) 0

/-- Python whitespace for `str.strip()` purposes (ASCII subset). -/
def isPyWs (c : Char) : Bool := c == ' ' || c == '\t' || c == '\n' || c == '\r'

/-- Python `s.strip()`: remove leading and trailing whitespace. -/
def pyStrip (s : PyStr) : PyStr :=
  ((s.dropWhile isPyWs).reverse.dropWhile isPyWs).reverse

/-- A nonempty all-digit run parsed as a natural number; otherwise `none`. -/
def parseDigits (ds : List Char) : Option ℕ :=
  if ds ≠ [] ∧ ds.all isDigitChar then some (digitsVal ds) else Option.none

/-- Sign-and-digit parsing of an already stripped string. -/
def pyIntParseCore : List Char → Option ℤ
  | [] => Option.none
  | c :: rest =>
    if c = '-' then (parseDigits rest).map (fun m : ℕ => -(m : ℤ))
    else if c = '+' then (parseDigits rest).map (fun m : ℕ => (m : ℤ))
    else (parseDigits (c :: rest)).map (fun m : ℕ => (m : ℤ))

/-- Python `int(s)` on a string: optional surrounding whitespace, an
optional sign, then a nonempty run of decimal digits. -/
def pyIntParse (s : PyStr) : Option ℤ :=
  pyIntParseCore (pyStrip s)

theorem digitsVal_append (ds : List Char) (c : Char) :
    digitsVal (ds ++ [c]) = 10 * digitsVal ds + digitVal c := by
  simp [digitsVal, List.foldl_append]

theorem digitChar_isDigit {d : ℕ} (h : d < 10) : isDigitChar (digitChar d) = true := by
  interval_cases d <;> decide

theorem digitVal_digitChar {d : ℕ} (h : d < 10) : digitVal (digitChar d) = d := by
  interval_cases d <;> decide

theorem natDigits_ne_nil (n : ℕ) : natDigits n ≠ [] := by
  rw [natDigits]
  split <;> simp

theorem natDigits_all_digits (n : ℕ) : (natDigits n).all isDigitChar = true := by
  induction n using Nat.strong_induction_on with
  | _ n ih =>
    rw [natDigits]
    split
    · simpa using digitChar_isDigit (by omega)
    · rename_i h
      have h1 := ih (n / 10) (Nat.div_lt_self (by omega) (by omega))
      have h2 := digitChar_isDigit (Nat.mod_lt n (show 0 < 10 by omega))
      simp only [List.all_append, List.all_cons, List.all_nil, Bool.and_true,
        Bool.and_eq_true]
      exact ⟨h1, h2⟩

theorem digitsVal_natDigits (n : ℕ) : digitsVal (natDigits n) = n := by
  induction n using Nat.strong_induction_on with
  | _ n ih =>
    rw [natDigits]
    split
    · rename_i h
      simp [digitsVal, digitVal_digitChar h]
    · rename_i h
      rw [digitsVal_append, ih (n / 10) (Nat.div_lt_self (by omega) (by omega)),
        digitVal_digitChar (Nat.mod_lt n (show 0 < 10 by omega))]
      omega

theorem isDigitChar_not_ws {c : Char} (h : isDigitChar c = true) : isPyWs c = false := by
  by_contra hw
  rw [Bool.not_eq_false] at hw
  unfold isPyWs at hw
  simp only [Bool.or_eq_true, beq_iff_eq] at hw
  rcases hw with ((rfl | rfl) | rfl) | rfl <;> exact absurd h (by decide)

theorem isDigitChar_ne_dash {c : Char} (h : isDigitChar c = true) : c ≠ '-' := by
  intro hc
  subst hc
  exact absurd h (by decide)

theorem isDigitChar_ne_plus {c : Char} (h : isDigitChar c = true) : c ≠ '+' := by
  intro hc
  subst hc
  exact absurd h (by decide)

theorem pyStrip_of_no_ws {s : PyStr} (h : ∀ c ∈ s, isPyWs c = false) :
    pyStrip s = s := by
  have h1 : s.dropWhile isPyWs = s := by
    rw [List.dropWhile_eq_self_iff]
    intro hl
    rw [h _ (List.get_mem s 0 hl)]
    simp
  have h2 : s.reverse.dropWhile isPyWs = s.reverse := by
    rw [List.dropWhile_eq_self_iff]
    intro hl
    have hm : s.reverse.get ⟨0, hl⟩ ∈ s := by
      have := List.get_mem s.reverse 0 hl
      simpa using this
    rw [h _ hm]
    simp
  unfold pyStrip
  rw [h1, h2, List.reverse_reverse]

theorem natDigits_no_ws (n : ℕ) : ∀ c ∈ natDigits n, isPyWs c = false := by
  intro c hc
  have hall := natDigits_all_digits n
  rw [List.all_eq_true] at hall
  exact isDigitChar_not_ws (hall c hc)

theorem parseDigits_natDigits (n : ℕ) : parseDigits (natDigits n) = some n := by
  unfold parseDigits
  rw [if_pos ⟨natDigits_ne_nil n, natDigits_all_digits n⟩, digitsVal_natDigits]

theorem pyIntParseCore_dash (l : List Char) :
    pyIntParseCore ('-' :: l) = (parseDigits l).map (fun m : ℕ => -(m : ℤ)) := by
  simp [pyIntParseCore]

theorem pyIntParseCore_plus (l : List Char) :
    pyIntParseCore ('+' :: l) = (parseDigits l).map (fun m : ℕ => (m : ℤ)) := by
  simp [pyIntParseCore]

theorem pyIntParseCore_other {c : Char} (h0 : c ≠ '-') (h1 : c ≠ '+') (l : List Char) :
    pyIntParseCore (c :: l) = (parseDigits (c :: l)).map (fun m : ℕ => (m : ℤ)) := by
  simp only [pyIntParseCore]
  rw [if_neg h0, if_neg h1]

/-- Parsing inverts rendering: Python `int(str(n)) == n`. -/
theorem pyIntParse_decimalRepr (n : ℤ) : pyIntParse (decimalRepr n) = some n := by
  rcases hd : natDigits n.toNat with _ | ⟨d, ds⟩
  · exact absurd hd (natDigits_ne_nil _)
  have hdig : isDigitChar d = true := by
    have := natDigits_all_digits n.toNat
    rw [hd, List.all_cons, Bool.and_eq_true] at this
    exact this.1
  unfold decimalRepr
  split
  · rename_i hn
    have hstrip : pyStrip ('-' :: natDigits (-n).toNat) = '-' :: natDigits (-n).toNat := by
      apply pyStrip_of_no_ws
      intro c hc
      rcases List.mem_cons.mp hc with rfl | hc
      · decide
      · exact natDigits_no_ws _ _ hc
    unfold pyIntParse
    rw [hstrip, pyIntParseCore_dash, parseDigits_natDigits]
    simp only [Option.map_some', Option.some.injEq]
    omega
  · rename_i hn
    have hstrip : pyStrip (natDigits n.toNat) = natDigits n.toNat :=
      pyStrip_of_no_ws (natDigits_no_ws _)
    unfold pyIntParse
    rw [hstrip, hd,
      pyIntParseCore_other (isDigitChar_ne_dash hdig) (isDigitChar_ne_plus hdig),
      ← hd, parseDigits_natDigits]
    simp only [Option.map_some', Option.some.injEq]
    omega

/-- Every character accepted by `pyIntParse` is whitespace, a sign, or a
digit; in particular a successfully parsed string contains no letter
and no dot. -/
theorem pyIntParse_chars {s : PyStr} {n : ℤ} (h : pyIntParse s = some n) :
    ∀ c ∈ s, isPyWs c = true ∨ c = '-' ∨ c = '+' ∨ isDigitChar c = true := by
  intro c hc
  by_cases hw : isPyWs c = true
  · exact Or.inl hw
  right
  -- c survives into `pyStrip s`, or is stripped whitespace.
  have hmem : c ∈ pyStrip s ∨ isPyWs c = true := by
    unfold pyStrip
    by_cases h1 : c ∈ (s.dropWhile isPyWs).reverse.dropWhile isPyWs
    · left; simpa using h1
    · -- c was dropped by one of the two dropWhile passes
      have h2 : c ∈ s.dropWhile isPyWs ∨ isPyWs c = true := by
        by_cases h3 : c ∈ s.dropWhile isPyWs
        · exact Or.inl h3
        · right
          have hsplit := List.takeWhile_append_dropWhile (p := isPyWs) (l := s)
          rw [← hsplit] at hc
          rcases List.mem_append.mp hc with h4 | h4
          · exact List.mem_takeWhile_imp h4
          · exact absurd h4 h3
      rcases h2 with h2 | h2
      · right
        have hsplit := List.takeWhile_append_dropWhile (p := isPyWs)
          (l := (s.dropWhile isPyWs).reverse)
        have h5 : c ∈ (s.dropWhile isPyWs).reverse := by simpa using h2
        rw [← hsplit] at h5
        rcases List.mem_append.mp h5 with h6 | h6
        · exact List.mem_takeWhile_imp h6
        · exact absurd h6 h1
      · exact Or.inr h2
  rcases hmem with hmem | hws
  swap
  · exact absurd hws hw
  -- now analyse the parse of the stripped string
  unfold pyIntParse at h
  rcases ht : pyStrip s with _ | ⟨t0, ts⟩
  · rw [ht] at hmem; cases hmem
  rw [ht] at hmem h
  have digits_of_parse : ∀ {l : List Char} {m : ℕ}, parseDigits l = some m →
      ∀ x ∈ l, isDigitChar x = true := by
    intro l m hp x hx
    unfold parseDigits at hp
    split at hp
    · rename_i hcond
      rw [List.all_eq_true] at hcond
      exact hcond.2 x hx
    · cases hp
  by_cases h0 : t0 = '-'
  · subst h0
    rw [pyIntParseCore_dash] at h
    rcases List.mem_cons.mp hmem with rfl | hmem2
    · exact Or.inl rfl
    · rcases hp : parseDigits ts with _ | m
      · rw [hp] at h; cases h
      · exact Or.inr (Or.inr (digits_of_parse hp c hmem2))
  · by_cases h1 : t0 = '+'
    · subst h1
      rw [pyIntParseCore_plus] at h
      rcases List.mem_cons.mp hmem with rfl | hmem2
      · exact Or.inr (Or.inl rfl)
      · rcases hp : parseDigits ts with _ | m
        · rw [hp] at h; cases h
        · exact Or.inr (Or.inr (digits_of_parse hp c hmem2))
    · rw [pyIntParseCore_other h0 h1] at h
      rcases hp : parseDigits (t0 :: ts) with _ | m
      · rw [hp] at h; cases h
      · exact Or.inr (Or.inr (digits_of_parse hp c hmem))

/-! ## Music-theory primitives (`core/pitch.py`, `core/scale.py`) -/

/-- `PitchClass.transpose`: `(value + n) mod 12`.  Pitch classes are the
integers 0–11; Python `%` with the positive modulus 12 is `Int.emod`. -/
def pcTranspose (v n : ℤ) : ℤ := (v + n) % 12

/-- `PitchClass.to_midi`: `value + (octave + 1) * 12`; C4 = 60. -/
def pcToMidi (v octave : ℤ) : ℤ := v + (octave + 1) * 12

/-- `ScaleDegree`: position 1–7 plus alteration.  The constructor
validation (`1 <= degree <= 7`, else `ValueError`) lives in
`mkScaleDegree`. -/
structure ScaleDegree where
  degree : ℤ
  alteration : ℤ := 0
deriving DecidableEq, Repr

/-- `ScaleDegree.__post_init__`: raises unless `1 <= degree <= 7`. -/
def mkScaleDegree (d : ℤ) (a : ℤ := 0) : Option ScaleDegree :=
  if 1 ≤ d ∧ d ≤ 7 then some ⟨d, a⟩ else Option.none

/-- `ScaleType`: the 7 step intervals (in semitones, summing to 12)
plus a display name. -/
structure ScaleType where
  intervals : List ℤ
  sname : String := ""
deriving DecidableEq, Repr

/-- `ScaleType.degree_to_semitones`: degree 1 is the alteration alone;
degree d>1 adds the first d−1 step intervals. -/
def ScaleType.degreeToSemitones (st : ScaleType) (d : ScaleDegree) : ℤ :=
  if d.degree = 1 then d.alteration
  else (st.intervals.take (d.degree - 1).toNat).sum + d.alteration

def majorScale : ScaleType := ⟨[2, 2, 1, 2, 2, 2, 1], "major"⟩
def naturalMinorScale : ScaleType := ⟨[2, 1, 2, 2, 1, 2, 2], "natural minor"⟩

/-- `Key`: a root pitch class plus a scale type. -/
structure Key where
  root : ℤ
  scale : ScaleType
deriving DecidableEq, Repr

/-- `Key.degree_to_pitch`. -/
def Key.degreeToPitch (k : Key) (d : ScaleDegree) : ℤ :=
  pcTranspose k.root (k.scale.degreeToSemitones d)

/-! ## Chords and Roman numerals (`core/chord.py`) -/

/-- `ChordQuality`: an interval stack from the root plus a name.  The
Python `frozenset` is modelled as the ascending interval list; all
qualities used by the program are the canonical constants below, whose
interval sets are distinct, so list equality coincides with the
dataclass (set, name) equality. -/
structure ChordQuality where
  intervals : List ℤ
  qname : String := ""
deriving DecidableEq, Repr

namespace ChordQuality

def MAJOR : ChordQuality := ⟨[0, 4, 7], "major"⟩
def MINOR : ChordQuality := ⟨[0, 3, 7], "minor"⟩
def DIMINISHED : ChordQuality := ⟨[0, 3, 6], "diminished"⟩
def AUGMENTED : ChordQuality := ⟨[0, 4, 8], "augmented"⟩
def MAJOR_7 : ChordQuality := ⟨[0, 4, 7, 11], "major 7"⟩
def MINOR_7 : ChordQuality := ⟨[0, 3, 7, 10], "minor 7"⟩
def DOMINANT_7 : ChordQuality := ⟨[0, 4, 7, 10], "dominant 7"⟩
def DIMINISHED_7 : ChordQuality := ⟨[0, 3, 6, 9], "diminished 7"⟩
def HALF_DIMINISHED_7 : ChordQuality := ⟨[0, 3, 6, 10], "half-diminished 7"⟩
def SUS2 : ChordQuality := ⟨[0, 2, 7], "sus2"⟩
def SUS4 : ChordQuality := ⟨[0, 5, 7], "sus4"⟩

/-- `ChordQuality.third`: the first interval of 3 or 4 semitones.  (Every
quality constant has at most one, so `frozenset` iteration order is
immaterial.) -/
def third (q : ChordQuality) : Option ℤ :=
  q.intervals.find? (fun i => i == 3 || i == 4)

/-- `ChordQuality.fifth`: the first interval of 6, 7 or 8 semitones. -/
def fifth (q : ChordQuality) : Option ℤ :=
  q.intervals.find? (fun i => i == 6 || i == 7 || i == 8)

/-- `ChordQuality.seventh`: the first interval of 9, 10 or 11 semitones. -/
def seventh (q : ChordQuality) : Option ℤ :=
  q.intervals.find? (fun i => i == 9 || i == 10 || i == 11)

/-- `ChordQuality.get_pitches`: chord tones sorted by interval, each
transposed from the root. -/
def getPitches (q : ChordQuality) (root : ℤ) : List ℤ :=
  (pySorted (fun i => [i]) q.intervals).map (fun i => pcTranspose root i)

end ChordQuality

/-- `Chord`: a concrete chord (root pitch class, quality, optional
slash bass). -/
structure Chord where
  root : ℤ
  quality : ChordQuality
  bass : Option ℤ := Option.none
deriving DecidableEq, Repr

/-- `RomanNumeral`: key-independent chord reference. -/
structure RomanNumeral where
  degree : ScaleDegree
  quality : ChordQuality
  inversion : ℤ := 0
deriving DecidableEq, Repr

namespace RomanNumeral

def I : RomanNumeral := ⟨⟨1, 0⟩, ChordQuality.MAJOR, 0⟩
def ii : RomanNumeral := ⟨⟨2, 0⟩, ChordQuality.MINOR, 0⟩
def iii : RomanNumeral := ⟨⟨3, 0⟩, ChordQuality.MINOR, 0⟩
def IV : RomanNumeral := ⟨⟨4, 0⟩, ChordQuality.MAJOR, 0⟩
def V : RomanNumeral := ⟨⟨5, 0⟩, ChordQuality.MAJOR, 0⟩
def vi : RomanNumeral := ⟨⟨6, 0⟩, ChordQuality.MINOR, 0⟩
def vii_dim : RomanNumeral := ⟨⟨7, 0⟩, ChordQuality.DIMINISHED, 0⟩
def V7 : RomanNumeral := ⟨⟨5, 0⟩, ChordQuality.DOMINANT_7, 0⟩
def i : RomanNumeral := ⟨⟨1, 0⟩, ChordQuality.MINOR, 0⟩
def ii_dim : RomanNumeral := ⟨⟨2, 0⟩, ChordQuality.DIMINISHED, 0⟩
def III : RomanNumeral := ⟨⟨3, 0⟩, ChordQuality.MAJOR, 0⟩
def iv : RomanNumeral := ⟨⟨4, 0⟩, ChordQuality.MINOR, 0⟩
def v : RomanNumeral := ⟨⟨5, 0⟩, ChordQuality.MINOR, 0⟩
def VI : RomanNumeral := ⟨⟨6, 0⟩, ChordQuality.MAJOR, 0⟩
def VII : RomanNumeral := ⟨⟨7, 0⟩, ChordQuality.MAJOR, 0⟩

/-- `RomanNumeral.resolve`: root from the key, bass from the
inversion-th ascending chord tone when it exists (silent fallback to no
bass otherwise). -/
def resolve (rn : RomanNumeral) (k : Key) : Chord :=
  let root := k.degreeToPitch rn.degree
  let bass : Option ℤ :=
    if 0 < rn.inversion then
      let pitches := rn.quality.getPitches root
      if rn.inversion < (pitches.length : ℤ) then some (pitches.getD rn.inversion.toNat 0)
      else Option.none
    else Option.none
  ⟨root, rn.quality, bass⟩

end RomanNumeral

/-- The numeral letters for degrees 1–7 (`RomanNumeral.__str__`
lookup table); other degrees fall back to the decimal rendering. -/
def numeralLetters (d : ℤ) : PyStr :=
  if d = 1 then ('I').toString.data
  else if d = 2 then ("II").data
  else if d = 3 then ("III").data
  else if d = 4 then ("IV").data
  else if d = 5 then ("V").data
  else if d = 6 then ("VI").data
  else if d = 7 then ("VII").data
  else decimalRepr d

/-- `RomanNumeral.__str__`. -/
def romanToString (rn : RomanNumeral) : PyStr :=
  let base0 := numeralLetters rn.degree.degree
  let base1 :=
    if rn.degree.alteration < 0 then
      List.replicate (-rn.degree.alteration).toNat 'b' ++ base0
    else if 0 < rn.degree.alteration then
      List.replicate rn.degree.alteration.toNat '#' ++ base0
    else base0
  let base2 :=
    if rn.quality = ChordQuality.MINOR ∨ rn.quality = ChordQuality.DIMINISHED ∨
        rn.quality = ChordQuality.MINOR_7 then
      base1.map Char.toLower
    else base1
  let base3 :=
    if rn.quality = ChordQuality.DIMINISHED then base2 ++ ['°']
    else if rn.quality = ChordQuality.AUGMENTED then base2 ++ ['+']
    else if rn.quality = ChordQuality.DOMINANT_7 then base2 ++ ['7']
    else if rn.quality = ChordQuality.MAJOR_7 then base2 ++ ['Δ', '7']
    else if rn.quality = ChordQuality.MINOR_7 then base2 ++ ['7']
    else if rn.quality = ChordQuality.HALF_DIMINISHED_7 then base2 ++ ['ø', '7']
    else if rn.quality = ChordQuality.DIMINISHED_7 then base2 ++ ['°', '7']
    else base2
  if rn.inversion = 1 then base3 ++ ['6']
  else if rn.inversion = 2 then base3 ++ ['6', '4']
  else if rn.inversion = 3 then base3 ++ ['4', '2']
  else base3

/-- The numeral-letter scan in `RomanNumeral.parse`: the longest leading
run of characters whose uppercase form is `I` or `V`, and the remaining
suffix.  (Python's indexed loop with its `for`/`else` clause computes
exactly this split.) -/
def splitNumeral : PyStr → PyStr × PyStr
  | [] => ([], [])
  | c :: rest =>
    if c.toUpper = 'I' ∨ c.toUpper = 'V' then
      let p := splitNumeral rest
      (c :: p.1, p.2)
    else ([], c :: rest)

/-- The `degree_map` lookup of `RomanNumeral.parse` (on the uppercased
numeral letters); an unknown numeral is a `ValueError`. -/
def numeralDegree (s : PyStr) : Option ℤ :=
  if s = ("I").data then some 1
  else if s = ("II").data then some 2
  else if s = ("III").data then some 3
  else if s = ("IV").data then some 4
  else if s = ("V").data then some 5
  else if s = ("VI").data then some 6
  else if s = ("VII").data then some 7
  else Option.none

/-- Python `str.islower()` restricted to the cased letters that can make
up the numeral-letter run (`i`, `v`, `I`, `V`): nonempty and entirely
lowercase. -/
def pyIsLower (s : PyStr) : Bool := !s.isEmpty && s.all Char.isLower

/-- Python substring containment `p in s`. -/
def pyInStr (p : PyStr) : PyStr → Bool
  | [] => p.isEmpty
  | c :: rest => p.isPrefixOf (c :: rest) || pyInStr p rest

/-- `RomanNumeral.parse`. -/
def romanParse (symbol : PyStr) : Option RomanNumeral := do
  let s0 := pyStrip symbol
  let bs := s0.takeWhile (fun c => c == 'b')
  let s1 := s0.dropWhile (fun c => c == 'b')
  let hs := s1.takeWhile (fun c => c == '#')
  let s2 := s1.dropWhile (fun c => c == '#')
  let alteration : ℤ := -(bs.length : ℤ) + (hs.length : ℤ)
  let (numeralChars, suffix) := splitNumeral s2
  let d ← numeralDegree (numeralChars.map Char.toUpper)
  let degree ← mkScaleDegree d alteration
  let isMinor := pyIsLower numeralChars
  let quality :=
    if pyInStr ['°'] suffix ∨ pyInStr (("dim").data) suffix then
      ChordQuality.DIMINISHED
    else if pyInStr ['+'] suffix ∨ pyInStr (("aug").data) suffix then
      ChordQuality.AUGMENTED
    else if pyInStr ['7'] suffix then
      if pyInStr ['Δ'] suffix ∨ pyInStr (("maj").data) suffix then
        ChordQuality.MAJOR_7
      else if pyInStr ['ø'] suffix then ChordQuality.HALF_DIMINISHED_7
      else if isMinor then ChordQuality.MINOR_7
      else ChordQuality.DOMINANT_7
    else if isMinor then ChordQuality.MINOR
    else ChordQuality.MAJOR
  pure ⟨degree, quality, 0⟩

/-! ## Rhythm primitives (`core/rhythm.py`) -/

/-- `Duration`: a rational beat length.  The Python constructor enforces
`beats > 0`; theorems that depend on it take it as a hypothesis. -/
structure Duration where
  beats : ℚ
deriving DecidableEq, Repr

/-- `Duration.to_ticks`: `int(beats * ticks_per_beat)`. -/
def Duration.toTicks (d : Duration) (ticksPerBeat : ℤ) : ℤ :=
  pyInt (d.beats * ticksPerBeat)

def wholeDuration : Duration := ⟨4⟩
def halfDuration : Duration := ⟨2⟩
def quarterDuration : Duration := ⟨1⟩
def eighthDuration : Duration := ⟨1 / 2⟩
def sixteenthDuration : Duration := ⟨1 / 4⟩

/-- `TimeSignature`.  The Python constructor enforces
`beats_per_bar > 0`. -/
structure TimeSignature where
  beatsPerBar : ℤ
  beatUnit : Duration
deriving DecidableEq, Repr

/-- `TimeSignature.bar_duration`. -/
def TimeSignature.barDuration (ts : TimeSignature) : Duration :=
  ⟨ts.beatUnit.beats * ts.beatsPerBar⟩

/-- `TimeSignature.bar_to_ticks`. -/
def TimeSignature.barToTicks (ts : TimeSignature) (ticksPerBeat : ℤ) : ℤ :=
  ts.barDuration.toTicks ticksPerBeat

def commonTime : TimeSignature := ⟨4, quarterDuration⟩

/-- `BeatPosition`: bar plus beat offset.  Constructor validation
(`bar >= 0`, `beat >= 0`) lives in `mkBeatPosition`. -/
structure BeatPosition where
  bar : ℤ
  beat : ℚ
deriving DecidableEq, Repr

/-- `BeatPosition.__post_init__`: raises on a negative component. -/
def mkBeatPosition (bar : ℤ) (beat : ℚ) : Option BeatPosition :=
  if 0 ≤ bar ∧ 0 ≤ beat then some ⟨bar, beat⟩ else Option.none

/-- `BeatPosition.to_ticks`. -/
def BeatPosition.toTicks (p : BeatPosition) (ts : TimeSignature) (ticksPerBeat : ℤ) : ℤ :=
  p.bar * ts.barToTicks ticksPerBeat + pyInt (p.beat * ticksPerBeat)

/-- `BeatPosition.to_beats`. -/
def BeatPosition.toBeats (p : BeatPosition) (ts : TimeSignature) : ℚ :=
  ((p.bar * ts.beatsPerBar : ℤ) : ℚ) + p.beat

/-! ## Python dicts (string-keyed, as used by the pattern compiler) -/

/-- A Python `dict[str, Any]` as an insertion-ordered association list
with unique keys (Python dicts preserve insertion order). -/
abbrev PyDict := List (PyStr × PyVal)

/-- `d[k]` / `d.get(k)`: the value at the first matching key. -/
def dictGet (d : PyDict) (k : PyStr) : Option PyVal :=
  (d.find? (fun kv => kv.1 == k)).map (fun kv => kv.2)

/-- `d.update(upd)`: existing keys are overwritten in place, new keys
appended in `upd` order. -/
def dictUpdate (d : PyDict) (upd : PyDict) : PyDict :=
  d.map (fun kv => match dictGet upd kv.1 with
      | some v => (kv.1, v)
      | Option.none => kv) ++
    upd.filter (fun kv => (dictGet d kv.1).isNone)

/-! ## MIDI events (`compiler/midi.py`) -/

/-- `TICKS_PER_BEAT = 480`. -/
def TICKS_PER_BEAT : ℤ := 480

/-- `MidiEvent`: one note event, all times absolute ticks. -/
structure MidiEvent where
  pitch : ℤ
  start_ticks : ℤ
  duration_ticks : ℤ
  velocity : ℤ
  channel : ℤ := 0
deriving DecidableEq, Repr

/-- `MidiEvent.__post_init__`: validates the MIDI ranges, raising
`ValueError` otherwise. -/
def mkMidiEvent (pitch start_ticks duration_ticks velocity channel : ℤ) :
    Option MidiEvent :=
  if 0 ≤ pitch ∧ pitch ≤ 127 ∧ 0 ≤ velocity ∧ velocity ≤ 127 ∧
      0 ≤ channel ∧ channel ≤ 15 ∧ 0 ≤ start_ticks ∧ 0 ≤ duration_ticks then
    some ⟨pitch, start_ticks, duration_ticks, velocity, channel⟩
  else Option.none

/-- `velocity_float_to_int`: `max(0, min(127, int(velocity * 127)))`. -/
def velocityFloatToInt (velocity : ℚ) : ℤ :=
  max 0 (min 127 (pyInt (velocity * 127)))

/-! ## Layer roles and registers (`models/arrangement.py`,
`patterns/compiler.py`) -/

/-- `LayerRole`. -/
inductive LayerRole where
  | sub | bass | drums | harmony | melody | fx | vocal
deriving DecidableEq, Repr

/-- `DEFAULT_REGISTERS` (total over the enum, so the `dict.get` default
`(48, 72)` is never taken). -/
def defaultRegisters : LayerRole → ℤ × ℤ
  | .sub => (24, 36)
  | .bass => (36, 52)
  | .drums => (36, 84)
  | .harmony => (48, 72)
  | .melody => (60, 84)
  | .fx => (36, 96)
  | .vocal => (48, 84)

/-! ## Harmony context (`patterns/compiler.py`) -/

/-- `HarmonyContext`. -/
structure HarmonyContext where
  key : Key
  progression : List PyStr
  harmonic_rhythm : Duration
deriving DecidableEq, Repr

/-- `HarmonyContext.chord_at`: empty progression defaults to the tonic
triad; otherwise `int(total_beats // chord_beats) % len(progression)`
indexes the progression (in range because the Python `%` of a positive
length is nonnegative), whose entry is parsed. -/
def HarmonyContext.chordAt (hc : HarmonyContext) (position : BeatPosition)
    (time_sig : TimeSignature) : Option RomanNumeral :=
  if hc.progression = [] then some RomanNumeral.I
  else
    let totalBeats := position.toBeats time_sig
    let chordBeats := hc.harmonic_rhythm.beats
    let chordIndex : ℤ := ⌊totalBeats / chordBeats⌋ % (hc.progression.length : ℤ)
    romanParse (hc.progression.getD chordIndex.toNat [])

/-- `HarmonyContext._octave_for_register`. -/
def octaveForRegister (register : ℤ × ℤ) : ℤ :=
  ((register.1 + register.2) / 2) / 12 - 1

/-- The first `while` of `_clamp_to_register`: add octaves while below
`low`. -/
def shiftUp (low : ℤ) (m : ℤ) : ℤ :=
  if m < low then shiftUp low (m + 12) else m
termination_by (low - m).toNat
decreasing_by omega

/-- The second `while` of `_clamp_to_register`: subtract octaves while
above `high`. -/
def shiftDown (high : ℤ) (m : ℤ) : ℤ :=
  if high < m then shiftDown high (m - 12) else m
termination_by (m - high).toNat
decreasing_by omega

/-- `HarmonyContext._clamp_to_register`. -/
def clampToRegister (midi_note : ℤ) (register : ℤ × ℤ) : ℤ :=
  max register.1 (min register.2 (shiftDown register.2 (shiftUp register.1 midi_note)))

/-- `degree_str.split(".")`: dot-separated groups, as Python's
`str.split` (an empty string yields one empty group). -/
def pySplitDot : PyStr → List PyStr
  | [] => [[]]
  | c :: rest =>
    if c = '.' then [] :: pySplitDot rest
    else
      match pySplitDot rest with
      | [] => [[c]]
      | g :: gs => (c :: g) :: gs

/-- `HarmonyContext.resolve_degree`: `chord.<tone>` / `scale.<n>` /
bare-integer / fallback dispatch, then register clamping.  `none`
models an escaped `ValueError` (unknown progression numeral, or an
out-of-range `scale.<n>` degree). -/
def HarmonyContext.resolveDegree (hc : HarmonyContext) (degree_str : PyStr)
    (position : BeatPosition) (time_sig : TimeSignature) (role : LayerRole)
    (octave_shift : ℤ) : Option ℤ :=
  let register := defaultRegisters role
  let base_octave := octaveForRegister register
  if ("chord.").data.isPrefixOf degree_str then do
    -- the `startswith` guard guarantees the split has an element 1
    let chord_tone := (pySplitDot degree_str).getD 1 []
    let chord ← hc.chordAt position time_sig
    let resolved := chord.resolve hc.key
    let pitch :=
      if chord_tone = ("root").data then resolved.root
      else if chord_tone = ("third").data then
        match resolved.quality.third with
        | some t => pcTranspose resolved.root t
        | Option.none => resolved.root
      else if chord_tone = ("fifth").data then
        match resolved.quality.fifth with
        | some t => pcTranspose resolved.root t
        | Option.none => pcTranspose resolved.root 7
      else if chord_tone = ("seventh").data then
        match resolved.quality.seventh with
        | some t => pcTranspose resolved.root t
        | Option.none => pcTranspose resolved.root 10
      else resolved.root
    pure (clampToRegister (pcToMidi pitch (base_octave + octave_shift)) register)
  else if ("scale.").data.isPrefixOf degree_str then do
    let degree_num ← pyIntParse ((pySplitDot degree_str).getD 1 [])
    let degree ← mkScaleDegree degree_num
    let pitch := hc.key.degreeToPitch degree
    pure (clampToRegister (pcToMidi pitch (base_octave + octave_shift)) register)
  else
    match pyIntParse degree_str with
    | some degree_num =>
      -- `ScaleDegree(min(7, max(1, n)))` cannot raise, nor can the rest
      -- of the `try` body, so the branch always returns
      (mkScaleDegree (min 7 (max 1 degree_num))).map (fun degree =>
        clampToRegister
          (pcToMidi (hc.key.degreeToPitch degree) (base_octave + octave_shift)) register)
    | Option.none =>
      some (clampToRegister (pcToMidi hc.key.root (base_octave + octave_shift)) register)

/-! ## Patterns (`models/pattern.py`) -/

/-- `PatternEvent`: pydantic enforces `beat >= 0` and
`0 <= note <= 127`; those bounds are hypotheses where needed. -/
structure PatternEvent where
  beat : ℚ
  duration : PyVal
  degree : Option PyStr := Option.none
  note : Option ℤ := Option.none
  velocity : PyVal := .num (4 / 5)
  octave_shift : ℤ := 0
deriving DecidableEq, Repr

/-- `PatternTemplate`: pydantic enforces `bars > 0`. -/
structure PatternTemplate where
  bars : ℤ := 1
  loop : Bool := true
  events : List PatternEvent := []
deriving DecidableEq, Repr

/-- `Pattern` (the fields the compiler reads: `pitched`, the parameter
defaults from `parameters`, `variants`, and `template`). -/
structure Pattern where
  pitched : Bool
  parameters : PyDict := []
  variants : List (PyStr × PyDict) := []
  template : PatternTemplate
deriving DecidableEq, Repr

/-- `Pattern.get_resolved_params`: defaults, then variant overrides
(only for a truthy, known variant name), then explicit overrides. -/
def Pattern.getResolvedParams (p : Pattern) (variant : Option PyStr)
    (overrides : Option PyDict) : PyDict :=
  let result := p.parameters
  let result :=
    match variant with
    | some v =>
      match (p.variants.find? (fun kv => kv.1 == v)) with
      | some kv => if v ≠ [] then dictUpdate result kv.2 else result
      | Option.none => result
    | Option.none => result
  match overrides with
  | some o => dictUpdate result o
  | Option.none => result

/-! ## Pattern compiler (`patterns/compiler.py`) -/

/-- `CompileContext`. -/
structure CompileContext where
  key : Key
  tempo : ℤ
  time_sig : TimeSignature
  harmony : HarmonyContext
  role : LayerRole
  channel : ℤ
  bar_offset : ℤ := 0
  params : Option PyDict := Option.none
deriving DecidableEq, Repr

/-- Python `float(s)`: sign, then digits with an optional decimal
point (`"5"`, `"5."`, `".5"`, `"1.25"`).  Exponent and special forms
are outside the model; they do not occur in the pipeline inputs. -/
def pyFloatBody (ds : List Char) : Option ℚ :=
  match ds.splitOn '.' with
  | [ip] => if ip ≠ [] ∧ ip.all isDigitChar then some ((digitsVal ip : ℕ) : ℚ)
      else Option.none
  | [ip, fp] =>
    if (ip ≠ [] ∨ fp ≠ []) ∧ ip.all isDigitChar ∧ fp.all isDigitChar then
      some (((digitsVal ip : ℕ) : ℚ) + ((digitsVal fp : ℕ) : ℚ) / ((10 : ℚ) ^ fp.length))
    else Option.none
  | _ => Option.none

def pyFloatParse (s : PyStr) : Option ℚ :=
  match pyStrip s with
  | [] => Option.none
  | c :: rest =>
    if c = '-' then (pyFloatBody rest).map (fun q => -q)
    else if c = '+' then pyFloatBody rest
    else pyFloatBody (c :: rest)

/-- `PatternCompiler._resolve_duration`: literal number, `$param`
indirection, named-duration table, numeric string, default quarter
note.  `none` models the `TypeError` escaping from `float(None)` when a
`$param` resolves to `None`. -/
def resolveDuration (duration : PyVal) (params : PyStr → Option PyVal)
    (ticks_per_beat : ℤ) : Option ℤ :=
  match duration with
  | .num q => some (pyInt (q * ticks_per_beat))
  | .none => Option.none
  | .str s =>
    let d2 : PyVal :=
      if s.head? = some '$' then (params (s.drop 1)).getD (.str (("quarter").data))
      else .str s
    let named : Option Duration :=
      match d2 with
      | .str t =>
        if t = ("whole").data then some wholeDuration
        else if t = ("half").data then some halfDuration
        else if t = ("quarter").data then some quarterDuration
        else if t = ("eighth").data then some eighthDuration
        else if t = ("sixteenth").data then some sixteenthDuration
        else Option.none
      | _ => Option.none
    match named with
    | some dur => some (dur.toTicks ticks_per_beat)
    | Option.none =>
      match d2 with
      | .num q => some (pyInt (q * ticks_per_beat))
      | .none => Option.none
      | .str t =>
        match pyFloatParse t with
        | some q => some (pyInt (q * ticks_per_beat))
        | Option.none => some ticks_per_beat

/-- `PatternCompiler._resolve_velocity`: `$param` indirection (missing
parameter defaults to `0.8`), then `max(0, min(127, int(v * 127)))` for
a numeric value, `100` for anything else. -/
def resolveVelocity (velocity : PyVal) (params : PyStr → Option PyVal) : ℤ :=
  let v1 : PyVal :=
    match velocity with
    | .str s => if s.head? = some '$' then (params (s.drop 1)).getD (.num (4 / 5)) else .str s
    | v => v
  match v1 with
  | .num q => max 0 (min 127 (pyInt (q * 127)))
  | _ => 100

/-- `PatternCompiler._compile_event`: one template event to an optional
MIDI event.  Outer `none` = an escaped exception; inner `none` = the
event has no pitch and produces no note. -/
def compileEvent (event : PatternEvent) (pattern : Pattern) (ctx : CompileContext)
    (params : PyDict) (bar_offset : ℤ) (ticks_per_beat : ℤ) :
    Option (Option MidiEvent) := do
  let beat_position ← mkBeatPosition bar_offset event.beat
  let start_ticks := beat_position.toTicks ctx.time_sig ticks_per_beat
  let duration_ticks ← resolveDuration event.duration (dictGet params) ticks_per_beat
  let degreeTruthy : Bool :=
    match event.degree with
    | some d => !d.isEmpty
    | Option.none => false
  let pitchStep : Option (Option ℤ) :=
    if pattern.pitched && degreeTruthy then
      (ctx.harmony.resolveDegree (event.degree.getD []) beat_position ctx.time_sig
        ctx.role event.octave_shift).map some
    else
      match event.note with
      | some nt => some (some nt)
      | Option.none => some Option.none
  let pitchOpt ← pitchStep
  match pitchOpt with
  | Option.none => pure Option.none
  | some pitch =>
    let velocity := resolveVelocity event.velocity (dictGet params)
    let ev ← mkMidiEvent pitch start_ticks duration_ticks velocity ctx.channel
    pure (some ev)

/-- `PatternCompiler._compile_iteration`: every template event in
template order; events without a pitch are dropped. -/
def compileIteration (pattern : Pattern) (ctx : CompileContext) (params : PyDict)
    (bar_offset : ℤ) (ticks_per_beat : ℤ) : Option (List MidiEvent) :=
  (pattern.template.events.mapM
    (fun e => compileEvent e pattern ctx params bar_offset ticks_per_beat)).map
    (fun l => l.filterMap id)

/-- The `while current_bar < bars` loop of `PatternCompiler.compile`.
pydantic enforces `template.bars > 0`; with a nonpositive value the
Python loop would not terminate, so that case returns `[]` here. -/
def compileGo (pattern : Pattern) (ctx : CompileContext) (params : PyDict)
    (ticks_per_beat : ℤ) (bars : ℤ) (current_bar : ℤ) : Option (List MidiEvent) :=
  if h : pattern.template.bars ≤ 0 then some []
  else if h2 : current_bar < bars then do
    let pattern_events ←
      compileIteration pattern ctx params (current_bar + ctx.bar_offset) ticks_per_beat
    let rest ←
      if pattern.template.loop then
        compileGo pattern ctx params ticks_per_beat bars (current_bar + pattern.template.bars)
      else pure []
    pure (pattern_events ++ rest)
  else some []
termination_by (bars - current_bar).toNat
decreasing_by omega

/-- `PatternCompiler.compile` (with the standard resolution
`ticks_per_beat` as a parameter): `context.params or
pattern.get_resolved_params()` — a `None` or empty dict falls back. -/
def patternCompile (pattern : Pattern) (ctx : CompileContext) (bars : ℤ)
    (ticks_per_beat : ℤ) : Option (List MidiEvent) :=
  let params :=
    match ctx.params with
    | some l => if l = [] then pattern.getResolvedParams Option.none Option.none else l
    | Option.none => pattern.getResolvedParams Option.none Option.none
  compileGo pattern ctx params ticks_per_beat bars 0

/-! ## Binary codec (`events_to_midi` in `compiler/midi.py`).

The tempo meta-event precedes the note records at time 0 and the
end-of-track marker follows them, neither affecting the note-record
delta chain (the running `current_time` starts at 0); the model covers
the note-record portion of the track. -/

/-- One emitted `note_on`/`note_off` record with its absolute tick. -/
structure MidiMsg where
  tick : ℤ
  isNoteOff : Bool
  channel : ℤ
  note : ℤ
  velocity : ℤ
deriving DecidableEq, Repr

/-- The two records appended for one event: `note_on` at the start,
then `note_off` (velocity 0) at start + duration. -/
def eventMessages (e : MidiEvent) : List MidiMsg :=
  [⟨e.start_ticks, false, e.channel, e.pitch, e.velocity⟩,
   ⟨e.start_ticks + e.duration_ticks, true, e.channel, e.pitch, 0⟩]

/-- The sort key `(abs_time, msg.type != "note_off")`: note-off (0)
before note-on (1) at an equal tick. -/
def msgKey (m : MidiMsg) : List ℤ :=
  [m.tick, if m.isNoteOff then 0 else 1]

/-- All records, in event order. -/
def midiMessages (events : List MidiEvent) : List MidiMsg :=
  (events.map eventMessages).flatten

/-- `messages.sort(key=...)`: Python's stable sort. -/
def sortedMessages (events : List MidiEvent) : List MidiMsg :=
  pySorted msgKey (midiMessages events)

/-- The delta-time conversion loop: each record's delta is its absolute
tick minus the running `current_time`. -/
def deltaEncode (current_time : ℤ) : List MidiMsg → List (ℤ × MidiMsg)
  | [] => []
  | m :: rest => (m.tick - current_time, m) :: deltaEncode m.tick rest

/-- The note-record portion of `events_to_midi`: sort, then convert to
deltas starting from time 0. -/
def eventsToTrack (events : List MidiEvent) : List (ℤ × MidiMsg) :=
  deltaEncode 0 (sortedMessages events)

/-- The tempo meta-event value: `int(60_000_000 / tempo_bpm)`. -/
def tempoMicroseconds (tempo_bpm : ℤ) : ℤ :=
  pyInt (60000000 / (tempo_bpm : ℚ))

/-! ## Score IR (`compiler/score_ir.py`) -/

/-- `SCHEMA_VERSION = "score_ir/v1"`. -/
def SCHEMA_VERSION : PyStr := ("score_ir/v1").data

/-- `IRNote`: ordering/equality key fields first, then the
non-comparing provenance metadata. -/
structure IRNote where
  start_ticks : ℤ
  channel : ℤ
  pitch : ℤ
  duration_ticks : ℤ
  velocity : ℤ
  source_layer : Option PyStr := Option.none
  source_pattern : Option PyStr := Option.none
  source_section : Option PyStr := Option.none
  bar : Option ℤ := Option.none
  beat : Option ℚ := Option.none
deriving DecidableEq, Repr

/-- The `order=True` comparison tuple of the comparing fields, in
declaration order. -/
def IRNote.sortKey (n : IRNote) : List ℤ :=
  [n.start_ticks, n.channel, n.pitch, n.duration_ticks, n.velocity]

/-- `IRNote.__post_init__` range validation. -/
def mkIRNote (start_ticks channel pitch duration_ticks velocity : ℤ)
    (source_layer source_pattern source_section : Option PyStr)
    (bar : Option ℤ) (beat : Option ℚ) : Option IRNote :=
  if 0 ≤ pitch ∧ pitch ≤ 127 ∧ 0 ≤ velocity ∧ velocity ≤ 127 ∧
      0 ≤ channel ∧ channel ≤ 15 ∧ 0 ≤ start_ticks ∧ 0 ≤ duration_ticks then
    some ⟨start_ticks, channel, pitch, duration_ticks, velocity,
      source_layer, source_pattern, source_section, bar, beat⟩
  else Option.none

structure IRSectionMarker where
  name : PyStr
  start_ticks : ℤ
  end_ticks : ℤ
  bars : ℤ
deriving DecidableEq, Repr

structure IRTempoEvent where
  ticks : ℤ
  bpm : ℤ
deriving DecidableEq, Repr

structure IRTimeSignature where
  numerator : ℤ
  denominator : ℤ
deriving DecidableEq, Repr

/-- `IRTimeSignature.from_time_sig`: the beat unit mapped to a standard
denominator (default 4). -/
def irTimeSignatureFromTimeSig (ts : TimeSignature) : IRTimeSignature :=
  let denominator : ℤ :=
    if ts.beatUnit.beats = 4 then 1
    else if ts.beatUnit.beats = 2 then 2
    else if ts.beatUnit.beats = 1 then 4
    else if ts.beatUnit.beats = 1 / 2 then 8
    else if ts.beatUnit.beats = 1 / 4 then 16
    else 4
  ⟨ts.beatsPerBar, denominator⟩

/-- One entry of the arranger's per-layer summary dict. -/
structure LayerInfo where
  role : PyStr
  channel : ℤ
  level : ℚ
  muted : Bool
  solo : Bool
deriving DecidableEq, Repr

/-- String sort key: Python compares strings by code point. -/
def strKey (s : PyStr) : List ℤ := s.map (fun c => (c.toNat : ℤ))

/-- `ScoreIR`. -/
structure ScoreIR where
  schema : PyStr := SCHEMA_VERSION
  name : PyStr := []
  key : PyStr := []
  tempo : ℤ := 120
  time_signature : IRTimeSignature := ⟨4, 4⟩
  ticks_per_beat : ℤ := 480
  total_ticks : ℤ := 0
  total_bars : ℤ := 0
  notes : List IRNote := []
  sections : List IRSectionMarker := []
  tempo_events : List IRTempoEvent := []
  layers : List (PyStr × LayerInfo) := []
deriving DecidableEq, Repr

/-- `ScoreIR.canonicalize`: notes sorted by the `IRNote` ordering key,
sections by start tick, tempo events by tick, the layers dict by key
(keys are unique so the tuple comparison never reaches the values). -/
def ScoreIR.canonicalize (ir : ScoreIR) : ScoreIR :=
  { ir with
    notes := pySorted IRNote.sortKey ir.notes
    sections := pySorted (fun s => [s.start_ticks]) ir.sections
    tempo_events := pySorted (fun t => [t.ticks]) ir.tempo_events
    layers := pySorted (fun kv => strKey kv.1) ir.layers }

/-! ## Score IR serialization (`to_dict`/`from_dict`).

`to_json`/`from_json` compose these with `json.dumps`/`json.loads`,
which is a faithful bijection on the dictionaries produced here, so the
round trip is settled at the dictionary level. -/

/-- `if self.source_layer:` — Python truthiness drops both `None` and
the empty string from the serialized dict. -/
def truthyStr (o : Option PyStr) : Option PyStr :=
  match o with
  | some s => if s.isEmpty then Option.none else some s
  | Option.none => Option.none

/-- The dictionary shape of one serialized note: required key fields,
optional provenance (absent keys are `Option.none`). -/
structure IRNoteDict where
  start_ticks : ℤ
  channel : ℤ
  pitch : ℤ
  duration_ticks : ℤ
  velocity : ℤ
  source_layer : Option PyStr := Option.none
  source_pattern : Option PyStr := Option.none
  source_section : Option PyStr := Option.none
  bar : Option ℤ := Option.none
  beat : Option ℚ := Option.none
deriving DecidableEq, Repr

/-- `IRNote.to_dict`: provenance strings only when truthy; `bar`/`beat`
only when not `None`. -/
def IRNote.toDict (n : IRNote) : IRNoteDict :=
  { start_ticks := n.start_ticks
    channel := n.channel
    pitch := n.pitch
    duration_ticks := n.duration_ticks
    velocity := n.velocity
    source_layer := truthyStr n.source_layer
    source_pattern := truthyStr n.source_pattern
    source_section := truthyStr n.source_section
    bar := n.bar
    beat := n.beat }

/-- `IRNote.from_dict`: reconstruction runs `__post_init__`
validation. -/
def IRNote.fromDict (d : IRNoteDict) : Option IRNote :=
  mkIRNote d.start_ticks d.channel d.pitch d.duration_ticks d.velocity
    d.source_layer d.source_pattern d.source_section d.bar d.beat

/-- The dictionary shape of a serialized `ScoreIR` (sections, tempo
events and the layer map serialize field-for-field via `asdict`). -/
structure ScoreIRDict where
  schema : PyStr
  name : PyStr
  key : PyStr
  tempo : ℤ
  time_signature : IRTimeSignature
  ticks_per_beat : ℤ
  total_ticks : ℤ
  total_bars : ℤ
  notes : List IRNoteDict
  sections : List IRSectionMarker
  tempo_events : List IRTempoEvent
  layers : List (PyStr × LayerInfo)
deriving DecidableEq, Repr

/-- `ScoreIR.to_dict`: always canonicalizes first. -/
def ScoreIR.toDict (ir : ScoreIR) : ScoreIRDict :=
  let c := ir.canonicalize
  { schema := c.schema
    name := c.name
    key := c.key
    tempo := c.tempo
    time_signature := c.time_signature
    ticks_per_beat := c.ticks_per_beat
    total_ticks := c.total_ticks
    total_bars := c.total_bars
    notes := c.notes.map IRNote.toDict
    sections := c.sections
    tempo_events := c.tempo_events
    layers := c.layers }

/-- `ScoreIR.from_dict` (`none` = a note failed range validation). -/
def ScoreIR.fromDict (d : ScoreIRDict) : Option ScoreIR :=
  (d.notes.mapM IRNote.fromDict).map (fun ns =>
    { schema := d.schema
      name := d.name
      key := d.key
      tempo := d.tempo
      time_signature := d.time_signature
      ticks_per_beat := d.ticks_per_beat
      total_ticks := d.total_ticks
      total_bars := d.total_bars
      notes := ns
      sections := d.sections
      tempo_events := d.tempo_events
      layers := d.layers })

/-! ## Arrangement model (`models/arrangement.py`) -/

/-- `PatternRef`. -/
structure PatternRef where
  ref : PyStr
  variant : Option PyStr := Option.none
  params : PyDict := []
deriving DecidableEq, Repr

/-- `Section` (pydantic enforces `bars > 0`; `energy` is irrelevant to
compilation). -/
structure Section where
  name : PyStr
  bars : ℤ
deriving DecidableEq, Repr

/-- `Layer`. -/
structure Layer where
  name : PyStr
  role : LayerRole
  channel : ℤ := 0
  patterns : List (PyStr × PatternRef) := []
  arrangement : List (PyStr × Option PyStr) := []
  muted : Bool := false
  solo : Bool := false
  level : ℚ := 1
deriving DecidableEq, Repr

/-- `LayerRole.value` (the `str`-enum payload). -/
def roleValue : LayerRole → PyStr
  | .sub => ("sub").data
  | .bass => ("bass").data
  | .drums => ("drums").data
  | .harmony => ("harmony").data
  | .melody => ("melody").data
  | .fx => ("fx").data
  | .vocal => ("vocal").data

/-- `Layer.get_pattern_for_section`: `None` for a missing or null
assignment, then a (possibly missing) alias lookup. -/
def Layer.getPatternForSection (l : Layer) (section_name : PyStr) : Option PatternRef :=
  match (l.arrangement.find? (fun kv => kv.1 == section_name)).map (fun kv => kv.2) with
  | some (some aliasName) =>
    (l.patterns.find? (fun kv => kv.1 == aliasName)).map (fun kv => kv.2)
  | some Option.none => Option.none
  | Option.none => Option.none

/-- `HarmonyProgression`. -/
structure HarmonyProgression where
  progression : List PyStr
  harmonic_rhythm : PyStr := ("1bar").data
deriving DecidableEq, Repr

/-- `Harmony` (named `HarmonyModel` to avoid clashing with the
compiler's `HarmonyContext`). -/
structure HarmonyModel where
  default_progression : List PyStr := [("I").data]
  harmonic_rhythm : PyStr := ("1bar").data
  sections : List (PyStr × HarmonyProgression) := []
deriving DecidableEq, Repr

/-- `Harmony.get_progression_for_section`. -/
def HarmonyModel.getProgressionForSection (h : HarmonyModel) (section_name : PyStr) :
    List PyStr :=
  match h.sections.find? (fun kv => kv.1 == section_name) with
  | some kv => kv.2.progression
  | Option.none => h.default_progression

/-- `ArrangementContext`: pydantic validates that `key` and
`time_signature` parse, so the parsed values (`get_key()`,
`get_time_signature()`) are carried alongside the raw key string that
`compile` copies into `ScoreIR.key`. -/
structure ArrangementContext where
  key_str : PyStr
  key : Key
  tempo : ℤ
  time_sig : TimeSignature
deriving DecidableEq, Repr

/-- `Arrangement` (the fields the compiler reads). -/
structure Arrangement where
  name : PyStr
  context : ArrangementContext
  harmony : HarmonyModel := {}
  sections : List Section := []
  layers : List (PyStr × Layer) := []
deriving DecidableEq, Repr

/-- `Arrangement.get_section`: the first section with the given name. -/
def Arrangement.getSection (arr : Arrangement) (name : PyStr) : Option Section :=
  arr.sections.find? (fun s => s.name == name)

/-! ## Arrangement compiler (`compiler/arranger.py`) -/

/-- `ArrangementCompiler._parse_harmonic_rhythm` (unknown strings
default to one chord per bar). -/
def parseHarmonicRhythm (s : PyStr) : Duration :=
  if s = ("1bar").data then wholeDuration
  else if s = ("2bar").data then ⟨8⟩
  else if s = ("half").data then halfDuration
  else if s = ("quarter").data then quarterDuration
  else if s = ("2beats").data then halfDuration
  else if s = ("4beats").data then wholeDuration
  else wholeDuration

/-- `ArrangementCompiler._has_soloed_layers`. -/
def hasSoloedLayers (arr : Arrangement) : Bool :=
  arr.layers.any (fun kv => kv.2.solo)

/-- `ArrangementCompiler._compile_layer_pattern`: compile, then apply
the layer level to velocities (`max(0, min(127, int(v * level)))`)
unless the level is exactly 1.0.  The rebuilt events revalidate, but
the clamp makes validation always succeed. -/
def compileLayerPattern (pattern : Pattern) (ctx : CompileContext) (bars : ℤ)
    (level : ℚ) (ticks_per_beat : ℤ) : Option (List MidiEvent) := do
  let events ← patternCompile pattern ctx bars ticks_per_beat
  if level ≠ 1 then
    pure (events.map (fun e =>
      { pitch := e.pitch
        start_ticks := e.start_ticks
        duration_ticks := e.duration_ticks
        velocity := max 0 (min 127 (pyInt ((e.velocity : ℚ) * level)))
        channel := e.channel }))
  else pure events

/-- Python `round(x, 3)` (half-to-even), on the exact value. -/
def pyRoundHalfEven (q : ℚ) : ℤ :=
  let f := ⌊q⌋
  let r := q - f
  if r < 1 / 2 then f
  else if 1 / 2 < r then f + 1
  else if f % 2 = 0 then f else f + 1

def pyRound3 (q : ℚ) : ℚ := ((pyRoundHalfEven (q * 1000) : ℤ) : ℚ) / 1000

/-- The note-building loop shared by `compile` and `compile_section`:
each MIDI event becomes an `IRNote` tagged with provenance, with
`bar`/`beat` recovered from the tick position. -/
def irNotesOfEvents (midi_events : List MidiEvent) (ticks_per_bar : ℤ)
    (ticks_per_beat : ℤ) (layer_name : PyStr) (ref : PyStr) (section_name : PyStr) :
    Option (List IRNote) :=
  midi_events.mapM (fun event =>
    let event_bar := event.start_ticks / ticks_per_bar
    let event_beat : ℚ := ((event.start_ticks % ticks_per_bar : ℤ) : ℚ) / (ticks_per_beat : ℚ)
    mkIRNote event.start_ticks event.channel event.pitch event.duration_ticks
      event.velocity (some layer_name) (some ref) (some section_name)
      (some event_bar) (some (pyRound3 event_beat)))

/-- The accumulating state of the per-section layer loop. -/
structure SectionAccum where
  all_notes : List IRNote
  layers_compiled : List PyStr
  layer_info : List (PyStr × LayerInfo)
deriving DecidableEq, Repr

/-- The body of the per-layer loop, shared by `compile` (which passes
`unique := true` and the running bar counter) and `compile_section`
(which passes `unique := false` and bar offset 0): skip muted layers,
respect solo mode, skip silently on a missing assignment or missing
registry pattern, then compile and accumulate. -/
def layerStep (reg : PyStr → Option Pattern) (arr : Arrangement)
    (section_name : PyStr) (section_bars : ℤ) (progression : List PyStr)
    (bar_offset : ℤ) (ticks_per_bar ticks_per_beat : ℤ) (unique : Bool)
    (kv : PyStr × Layer) (acc : SectionAccum) : Option SectionAccum :=
  let layer_name := kv.1
  let layer := kv.2
  if layer.muted then some acc
  else if hasSoloedLayers arr && !layer.solo then some acc
  else
    match layer.getPatternForSection section_name with
    | Option.none => some acc
    | some pattern_ref =>
      match reg pattern_ref.ref with
      | Option.none => some acc
      | some pattern => do
        let harmony : HarmonyContext :=
          ⟨arr.context.key, progression, parseHarmonicRhythm arr.harmony.harmonic_rhythm⟩
        let resolved_params := pattern.getResolvedParams pattern_ref.variant
          (some pattern_ref.params)
        let ctx : CompileContext :=
          ⟨arr.context.key, arr.context.tempo, arr.context.time_sig, harmony,
            layer.role, layer.channel, bar_offset, some resolved_params⟩
        let midi_events ← compileLayerPattern pattern ctx section_bars layer.level
          ticks_per_beat
        let notes ← irNotesOfEvents midi_events ticks_per_bar ticks_per_beat
          layer_name pattern_ref.ref section_name
        let layers_compiled :=
          if unique then
            if acc.layers_compiled.contains layer_name then acc.layers_compiled
            else acc.layers_compiled ++ [layer_name]
          else acc.layers_compiled ++ [layer_name]
        let layer_info :=
          if ((acc.layer_info.find? (fun kv2 => kv2.1 == layer_name)).isSome : Bool) then
            acc.layer_info
          else
            acc.layer_info ++
              [(layer_name,
                ⟨roleValue layer.role, layer.channel, layer.level, layer.muted, layer.solo⟩)]
        pure ⟨acc.all_notes ++ notes, layers_compiled, layer_info⟩

/-- The per-section loop over `arrangement.layers.items()`. -/
def layersLoop (reg : PyStr → Option Pattern) (arr : Arrangement)
    (section_name : PyStr) (section_bars : ℤ) (progression : List PyStr)
    (bar_offset : ℤ) (ticks_per_bar ticks_per_beat : ℤ) (unique : Bool) :
    List (PyStr × Layer) → SectionAccum → Option SectionAccum
  | [], acc => some acc
  | kv :: rest, acc => do
    let acc2 ← layerStep reg arr section_name section_bars progression bar_offset
      ticks_per_bar ticks_per_beat unique kv acc
    layersLoop reg arr section_name section_bars progression bar_offset
      ticks_per_bar ticks_per_beat unique rest acc2

/-- The running state of `ArrangementCompiler.compile`. -/
structure CompileState where
  current_bar : ℤ
  current_tick : ℤ
  all_notes : List IRNote
  section_markers : List IRSectionMarker
  layers_compiled : List PyStr
  sections_compiled : List PyStr
  layer_info : List (PyStr × LayerInfo)
deriving DecidableEq, Repr

/-- One section of `ArrangementCompiler.compile`. -/
def sectionStep (reg : PyStr → Option Pattern) (arr : Arrangement)
    (ticks_per_bar ticks_per_beat : ℤ) (st : CompileState) (sec : Section) :
    Option CompileState := do
  let section_start_tick := st.current_tick
  let section_end_tick := st.current_tick + sec.bars * ticks_per_bar
  let marker : IRSectionMarker :=
    ⟨sec.name, section_start_tick, section_end_tick, sec.bars⟩
  let progression := arr.harmony.getProgressionForSection sec.name
  let acc ← layersLoop reg arr sec.name sec.bars progression st.current_bar
    ticks_per_bar ticks_per_beat true arr.layers
    ⟨st.all_notes, st.layers_compiled, st.layer_info⟩
  pure
    { current_bar := st.current_bar + sec.bars
      current_tick := section_end_tick
      all_notes := acc.all_notes
      section_markers := st.section_markers ++ [marker]
      layers_compiled := acc.layers_compiled
      sections_compiled := st.sections_compiled ++ [sec.name]
      layer_info := acc.layer_info }

/-- `CompileResult` (the MIDI file is derived from the canonical IR
notes by `events_to_midi` and is not re-modelled here). -/
structure CompileResult where
  score_ir : ScoreIR
  total_bars : ℤ
  total_events : ℤ
  layers_compiled : List PyStr
  sections_compiled : List PyStr
deriving DecidableEq, Repr

/-- `ArrangementCompiler.compile`. -/
def compileArrangement (reg : PyStr → Option Pattern) (arr : Arrangement)
    (ticks_per_beat : ℤ) : Option CompileResult := do
  let ticks_per_bar := ticks_per_beat * arr.context.time_sig.beatsPerBar
  let st ← arr.sections.foldlM (sectionStep reg arr ticks_per_bar ticks_per_beat)
    ⟨0, 0, [], [], [], [], []⟩
  let score_ir : ScoreIR :=
    { schema := SCHEMA_VERSION
      name := arr.name
      key := arr.context.key_str
      tempo := arr.context.tempo
      time_signature := irTimeSignatureFromTimeSig arr.context.time_sig
      ticks_per_beat := ticks_per_beat
      total_ticks := st.current_tick
      total_bars := st.current_bar
      notes := st.all_notes
      sections := st.section_markers
      tempo_events := [⟨0, arr.context.tempo⟩]
      layers := st.layer_info }
  let score_ir := score_ir.canonicalize
  pure
    { score_ir := score_ir
      total_bars := st.current_bar
      total_events := (score_ir.notes.length : ℤ)
      layers_compiled := st.layers_compiled
      sections_compiled := st.sections_compiled }

/-- `ArrangementCompiler.compile_section`: raises (`none`) when the
named section does not exist; otherwise a single-section compile with
bar offset 0. -/
def compileSection (reg : PyStr → Option Pattern) (arr : Arrangement)
    (section_name : PyStr) (ticks_per_beat : ℤ) : Option CompileResult := do
  let sec ← arr.getSection section_name
  let ticks_per_bar := ticks_per_beat * arr.context.time_sig.beatsPerBar
  let progression := arr.harmony.getProgressionForSection section_name
  let acc ← layersLoop reg arr section_name sec.bars progression 0
    ticks_per_bar ticks_per_beat false arr.layers ⟨[], [], []⟩
  let section_ticks := sec.bars * ticks_per_bar
  let score_ir : ScoreIR :=
    { schema := SCHEMA_VERSION
      name := arr.name ++ ':' :: section_name
      key := arr.context.key_str
      tempo := arr.context.tempo
      time_signature := irTimeSignatureFromTimeSig arr.context.time_sig
      ticks_per_beat := ticks_per_beat
      total_ticks := section_ticks
      total_bars := sec.bars
      notes := acc.all_notes
      sections := [⟨section_name, 0, section_ticks, sec.bars⟩]
      tempo_events := [⟨0, arr.context.tempo⟩]
      layers := acc.layer_info }
  let score_ir := score_ir.canonicalize
  pure
    { score_ir := score_ir
      total_bars := sec.bars
      total_events := (score_ir.notes.length : ℤ)
      layers_compiled := acc.layers_compiled
      sections_compiled := [section_name] }

/-! ## Claim C1 — velocity resolution -/

/-- C1 (counterexample): at the literal velocity 0.5 — inside [0.0, 1.0]
— the compiler resolves `int(0.5 * 127) = 63`, not the claimed
`round(0.5 * 127) = 64`: resolution truncates instead of rounding. -/
theorem c1_round_counterexample :
    resolveVelocity (PyVal.num (1 / 2)) (fun _ => Option.none) ≠
      max 0 (min 127 (round ((1 / 2 : ℚ) * 127))) := by
  have h1 : resolveVelocity (PyVal.num (1 / 2)) (fun _ => Option.none) = 63 := by
    show max 0 (min 127 (pyInt ((1 / 2 : ℚ) * 127))) = 63
    rw [pyInt, if_pos (by norm_num)]
    norm_num
  have h2 : max 0 (min 127 (round ((1 / 2 : ℚ) * 127) : ℤ)) = 64 := by
    norm_num [round_eq]
  rw [h1, h2]
  decide

/-- C1 (amended): a numeric velocity v (literal or reached through a
`"$name"` parameter) resolves to `int(v × 127)` — truncation toward
zero, not rounding — clamped to [0, 127]; this applies to every numeric
value, not only those in [0.0, 1.0].  A `"$name"` missing from the
parameter map defaults to 0.8 (resolving to 101); any non-numeric
velocity value resolves to 100. -/
theorem c1_velocity_truncation (params : PyStr → Option PyVal) :
    (∀ q : ℚ, resolveVelocity (PyVal.num q) params = max 0 (min 127 (pyInt (q * 127)))) ∧
    (∀ name q, params name = some (PyVal.num q) →
      resolveVelocity (PyVal.str ('$' :: name)) params = max 0 (min 127 (pyInt (q * 127)))) ∧
    (∀ name, params name = Option.none →
      resolveVelocity (PyVal.str ('$' :: name)) params = 101) ∧
    (∀ name s, params name = some (PyVal.str s) →
      resolveVelocity (PyVal.str ('$' :: name)) params = 100) ∧
    (∀ name, params name = some PyVal.none →
      resolveVelocity (PyVal.str ('$' :: name)) params = 100) ∧
    (∀ s : PyStr, s.head? ≠ some '$' → resolveVelocity (PyVal.str s) params = 100) := by
  refine ⟨fun q => rfl, fun name q h => ?_, fun name h => ?_, fun name s h => ?_,
    fun name h => ?_, fun s h => ?_⟩
  · simp [resolveVelocity, h]
  · have h2 : resolveVelocity (PyVal.str ('$' :: name)) params =
        max 0 (min 127 (pyInt ((4 / 5 : ℚ) * 127))) := by
      simp [resolveVelocity, h]
    rw [h2, pyInt, if_pos (by norm_num)]
    norm_num
  · simp [resolveVelocity, h]
  · simp [resolveVelocity, h]
  · simp [resolveVelocity, if_neg h]

/-- C1 (witness): a `"$v"` velocity with `v` absent from the parameter
map resolves through the 0.8 default to 101. -/
theorem c1_velocity_truncation_witness :
    resolveVelocity (PyVal.str ['$', 'v']) (fun _ => Option.none) = 101 :=
  (c1_velocity_truncation (fun _ => Option.none)).2.2.1 ['v'] rfl

/-! ## Claim C10 — layer level only rescales velocities -/

/-- C10: applying a layer level preserves the event count and order and
every event's pitch, start, duration and channel; level 1.0 returns the
compiled events unchanged. -/
theorem c10_level_frame (pattern : Pattern) (ctx : CompileContext) (bars : ℤ)
    (level : ℚ) (ticks_per_beat : ℤ) (events : List MidiEvent)
    (h : patternCompile pattern ctx bars ticks_per_beat = some events) :
    ∃ out : List MidiEvent,
      compileLayerPattern pattern ctx bars level ticks_per_beat = some out ∧
      out.length = events.length ∧
      List.Forall₂ (fun e o : MidiEvent => o.pitch = e.pitch ∧
        o.start_ticks = e.start_ticks ∧ o.duration_ticks = e.duration_ticks ∧
        o.channel = e.channel) events out ∧
      (level = 1 → out = events) := by
  have hrefl : ∀ l : List MidiEvent,
      List.Forall₂ (fun e o : MidiEvent => o.pitch = e.pitch ∧
        o.start_ticks = e.start_ticks ∧ o.duration_ticks = e.duration_ticks ∧
        o.channel = e.channel) l l := by
    intro l
    induction l with
    | nil => exact List.Forall₂.nil
    | cons a t ih => exact List.Forall₂.cons ⟨rfl, rfl, rfl, rfl⟩ ih
  have hmap : ∀ (l : List MidiEvent) (f : MidiEvent → MidiEvent),
      (∀ e, (f e).pitch = e.pitch ∧ (f e).start_ticks = e.start_ticks ∧
        (f e).duration_ticks = e.duration_ticks ∧ (f e).channel = e.channel) →
      List.Forall₂ (fun e o : MidiEvent => o.pitch = e.pitch ∧
        o.start_ticks = e.start_ticks ∧ o.duration_ticks = e.duration_ticks ∧
        o.channel = e.channel) l (l.map f) := by
    intro l f hf
    induction l with
    | nil => exact List.Forall₂.nil
    | cons a t ih => exact List.Forall₂.cons (hf a) ih
  unfold compileLayerPattern
  rw [h]
  by_cases hl : level = 1
  · subst hl
    refine ⟨events, ?_, rfl, hrefl events, fun _ => rfl⟩
    simp
  · refine ⟨events.map (fun e =>
      { pitch := e.pitch
        start_ticks := e.start_ticks
        duration_ticks := e.duration_ticks
        velocity := max 0 (min 127 (pyInt ((e.velocity : ℚ) * level)))
        channel := e.channel }), ?_, by simp, hmap events _ (fun e => ⟨rfl, rfl, rfl, rfl⟩),
      fun h1 => absurd h1 hl⟩
    simp [hl]

/-- A one-event unpitched pattern used to exercise the layer-level
frame property. -/
def c10Pattern : Pattern :=
  { pitched := false
    template :=
      { bars := 1
        loop := true
        events := [{ beat := 0, duration := .num 1, note := some 60 }] } }

def c10Ctx : CompileContext :=
  { key := ⟨0, majorScale⟩, tempo := 120, time_sig := commonTime,
    harmony := ⟨⟨0, majorScale⟩, [], wholeDuration⟩, role := .melody, channel := 0 }

/-- C10 (witness): the frame property at a concrete one-note pattern
and level 0.5. -/
theorem c10_level_frame_witness :
    ∃ out : List MidiEvent,
      compileLayerPattern c10Pattern c10Ctx 1 (1 / 2) 480 = some out ∧
      out.length = 1 := by
  have hcomp : patternCompile c10Pattern c10Ctx 1 480 =
      some [⟨60, 0, 480, 101, 0⟩] := by
    simp [patternCompile, compileGo, compileIteration, compileEvent, c10Pattern, c10Ctx,
      Pattern.getResolvedParams, mkBeatPosition, BeatPosition.toTicks, resolveDuration,
      resolveVelocity, mkMidiEvent, dictGet, pyInt, TimeSignature.barToTicks,
      TimeSignature.barDuration, Duration.toTicks, commonTime, quarterDuration,
      List.mapM, List.mapM.loop]
    norm_num
  obtain ⟨out, h1, h2, h3, h4⟩ :=
    c10_level_frame c10Pattern c10Ctx 1 (1 / 2) 480 [⟨60, 0, 480, 101, 0⟩] hcomp
  exact ⟨out, h1, by rw [h2]; rfl⟩

/-! ## Register-clamping lemmas -/

theorem shiftUp_of_ge {low m : ℤ} (h : low ≤ m) : shiftUp low m = m := by
  rw [shiftUp]
  exact if_neg (by omega)

theorem shiftDown_of_le {high m : ℤ} (h : m ≤ high) : shiftDown high m = m := by
  rw [shiftDown]
  exact if_neg (by omega)

/-- A note already inside the register is returned unchanged. -/
theorem clampToRegister_of_inside {low high m : ℤ} (h1 : low ≤ m) (h2 : m ≤ high) :
    clampToRegister m (low, high) = m := by
  unfold clampToRegister
  rw [shiftUp_of_ge h1, shiftDown_of_le h2]
  omega

/-- The hard clamp at the end of `_clamp_to_register` pins the result
into `[low, high]` whenever `low ≤ high`. -/
theorem clampToRegister_bounds {low high : ℤ} (h : low ≤ high) (m : ℤ) :
    low ≤ clampToRegister m (low, high) ∧ clampToRegister m (low, high) ≤ high := by
  unfold clampToRegister
  constructor
  · exact le_max_left _ _
  · exact max_le h (min_le_left _ _)

/-- Every configured register has `low ≤ high`. -/
theorem defaultRegisters_le (role : LayerRole) :
    (defaultRegisters role).1 ≤ (defaultRegisters role).2 := by
  cases role <;> decide

/-! ## String-dispatch lemmas for `resolve_degree` -/

theorem isPrefixOf_append_self (pre s : PyStr) : (pre.isPrefixOf (pre ++ s)) = true := by
  induction pre with
  | nil => simp [List.isPrefixOf]
  | cons c rest ih => simp [List.isPrefixOf, ih]

theorem pySplitDot_cons_ne {c : Char} (h : c ≠ '.') (s : PyStr) :
    pySplitDot (c :: s) =
      match pySplitDot s with
      | [] => [[c]]
      | g :: gs => (c :: g) :: gs := by
  simp [pySplitDot, h]

theorem pySplitDot_cons_dot (s : PyStr) : pySplitDot ('.' :: s) = [] :: pySplitDot s := by
  simp [pySplitDot]

theorem pySplitDot_ne_nil (s : PyStr) : pySplitDot s ≠ [] := by
  induction s with
  | nil => simp [pySplitDot]
  | cons c rest ih =>
    by_cases h : c = '.'
    · subst h
      rw [pySplitDot_cons_dot]
      simp
    · rw [pySplitDot_cons_ne h]
      rcases pySplitDot rest with _ | ⟨g, gs⟩ <;> simp

theorem pySplitDot_no_dot {s : PyStr} (h : '.' ∉ s) : pySplitDot s = [s] := by
  induction s with
  | nil => rfl
  | cons c rest ih =>
    have hc : c ≠ '.' := fun hc => h (hc ▸ List.mem_cons_self c rest)
    have hr : '.' ∉ rest := fun hm => h (List.mem_cons_of_mem _ hm)
    rw [pySplitDot_cons_ne hc, ih hr]

/-- Splitting `"scale." + s` on dots peels off the `scale` group. -/
theorem pySplitDot_scale (s : PyStr) :
    pySplitDot (("scale.").data ++ s) = ("scale").data :: pySplitDot s := by
  show pySplitDot ('s' :: 'c' :: 'a' :: 'l' :: 'e' :: '.' :: s) = _
  rw [pySplitDot_cons_ne (by decide), pySplitDot_cons_ne (by decide),
    pySplitDot_cons_ne (by decide), pySplitDot_cons_ne (by decide),
    pySplitDot_cons_ne (by decide), pySplitDot_cons_dot]

theorem decimalRepr_head (n : ℤ) :
    ∃ c cs, decimalRepr n = c :: cs ∧ (c = '-' ∨ isDigitChar c = true) := by
  unfold decimalRepr
  split
  · exact ⟨'-', _, rfl, Or.inl rfl⟩
  · rcases hd : natDigits n.toNat with _ | ⟨d, ds⟩
    · exact absurd hd (natDigits_ne_nil _)
    · refine ⟨d, ds, rfl, Or.inr ?_⟩
      have hall := natDigits_all_digits n.toNat
      rw [hd, List.all_cons, Bool.and_eq_true] at hall
      exact hall.1

theorem decimalRepr_no_dot (n : ℤ) : '.' ∉ decimalRepr n := by
  intro hmem
  have hdig : ∀ c ∈ decimalRepr n, c = '-' ∨ isDigitChar c = true := by
    intro c hc
    unfold decimalRepr at hc
    split at hc
    · rcases List.mem_cons.mp hc with rfl | hc2
      · exact Or.inl rfl
      · have hall := natDigits_all_digits (-n).toNat
        rw [List.all_eq_true] at hall
        exact Or.inr (hall c hc2)
    · have hall := natDigits_all_digits n.toNat
      rw [List.all_eq_true] at hall
      exact Or.inr (hall c hc)
  rcases hdig '.' hmem with h | h
  · exact absurd h (by decide)
  · exact absurd h (by decide)

/-- A pure decimal rendering never carries the `chord.` prefix. -/
theorem chord_not_pre_decimal (n : ℤ) :
    (("chord.").data.isPrefixOf (decimalRepr n)) = false := by
  obtain ⟨c, cs, heq, hc⟩ := decimalRepr_head n
  rw [heq]
  show (('c' :: ("hord.").data).isPrefixOf (c :: cs)) = false
  have hne : ('c' : Char) ≠ c := by
    rcases hc with rfl | hdig
    · decide
    · intro h
      rw [← h] at hdig
      exact absurd hdig (by decide)
  simp [List.isPrefixOf, hne]

/-- A pure decimal rendering never carries the `scale.` prefix. -/
theorem scale_not_pre_decimal (n : ℤ) :
    (("scale.").data.isPrefixOf (decimalRepr n)) = false := by
  obtain ⟨c, cs, heq, hc⟩ := decimalRepr_head n
  rw [heq]
  show (('s' :: ("cale.").data).isPrefixOf (c :: cs)) = false
  have hne : ('s' : Char) ≠ c := by
    rcases hc with rfl | hdig
    · decide
    · intro h
      rw [← h] at hdig
      exact absurd hdig (by decide)
  simp [List.isPrefixOf, hne]

/-- `"chord."` is not a prefix of `"scale." + s`. -/
theorem chord_not_pre_scale (s : PyStr) :
    (("chord.").data.isPrefixOf (("scale.").data ++ s)) = false := by
  show (('c' :: ("hord.").data).isPrefixOf ('s' :: (("cale.").data ++ s))) = false
  simp [List.isPrefixOf]

/-! ## Claim C3 — resolved pitches stay inside the role register -/

/-- C3: whenever `resolve_degree` returns (it can raise on malformed
input — see C2), the returned MIDI pitch lies within the role's
configured `[low, high]` register. -/
theorem c3_register_bounds (hc : HarmonyContext) (s : PyStr) (pos : BeatPosition)
    (ts : TimeSignature) (role : LayerRole) (oct : ℤ) (p : ℤ)
    (h : hc.resolveDegree s pos ts role oct = some p) :
    (defaultRegisters role).1 ≤ p ∧ p ≤ (defaultRegisters role).2 := by
  have hle := defaultRegisters_le role
  have hclamp : ∀ m : ℤ, clampToRegister m (defaultRegisters role) = p →
      (defaultRegisters role).1 ≤ p ∧ p ≤ (defaultRegisters role).2 := by
    intro m hm
    rcases hreg : defaultRegisters role with ⟨low, high⟩
    rw [hreg] at hm hle
    obtain ⟨h1, h2⟩ := clampToRegister_bounds hle m
    rw [hm] at h1 h2
    exact ⟨h1, h2⟩
  unfold HarmonyContext.resolveDegree at h
  split at h
  · -- `chord.<tone>` branch
    simp only [bind, Option.bind_eq_some, Option.pure_def, Option.some.injEq] at h
    obtain ⟨chord, hch, h⟩ := h
    exact hclamp _ h
  · split at h
    · -- `scale.<n>` branch
      simp only [bind, Option.bind_eq_some, Option.pure_def, Option.some.injEq] at h
      obtain ⟨n, hn, degree, hdeg, h⟩ := h
      exact hclamp _ h
    · -- bare-integer / fallback branch
      split at h
      · rename_i n hint
        rw [show mkScaleDegree (min 7 (max 1 n)) = some ⟨min 7 (max 1 n), 0⟩ from
          if_pos (by omega)] at h
        simp only [Option.map_some', Option.some.injEq] at h
        exact hclamp _ h
      · simp only [Option.some.injEq] at h
        exact hclamp _ h

/-- A C-major harmony context (empty progression, so `chord.*` tones
fall back to the tonic triad). -/
def c3Hc : HarmonyContext := ⟨⟨0, majorScale⟩, [], wholeDuration⟩

/-- C3 (witness): `chord.root` for the harmony role of C major resolves
to middle C (60), inside the register `(48, 72)`. -/
theorem c3_register_bounds_witness :
    c3Hc.resolveDegree (("chord.root").data) ⟨0, 0⟩ commonTime .harmony 0 = some 60 ∧
    (48 : ℤ) ≤ 60 ∧ (60 : ℤ) ≤ 72 := by
  have heval : c3Hc.resolveDegree (("chord.root").data) ⟨0, 0⟩ commonTime .harmony 0 =
      some 60 := by
    have hin : clampToRegister 60 (48, 72) = 60 :=
      clampToRegister_of_inside (by norm_num) (by norm_num)
    have h1 : (("chord.").data.isPrefixOf (("chord.root").data)) = true := by decide
    have h2 : (pySplitDot (("chord.root").data)).getD 1 [] = ("root").data := by decide
    have h3 : c3Hc.chordAt ⟨0, 0⟩ commonTime = some RomanNumeral.I := by decide
    have h4 : (RomanNumeral.I.resolve c3Hc.key).root = 0 := by decide
    simp only [HarmonyContext.resolveDegree]
    rw [if_pos h1]
    simp only [bind, Option.bind_eq_some]
    refine ⟨RomanNumeral.I, h3, ?_⟩
    rw [h2, if_pos rfl, h4]
    have h5 : pcToMidi 0 (octaveForRegister (defaultRegisters .harmony) + 0) = 60 := by
      decide
    rw [h5]
    show some (clampToRegister 60 (48, 72)) = some 60
    rw [hin]
  refine ⟨heval, ?_⟩
  have := c3_register_bounds c3Hc (("chord.root").data) ⟨0, 0⟩ commonTime .harmony 0 60 heval
  simpa [defaultRegisters] using this

/-! ## Claim C2 — `scale.<n>` vs bare-integer degree clamping -/

/-- A C-major harmony context for the C2 inputs. -/
def c2Hc : HarmonyContext := ⟨⟨0, majorScale⟩, [], wholeDuration⟩

/-- C2 (counterexample): `"scale.8"` raises (a `ValueError` from the
`ScaleDegree` constructor, modelled `none`) instead of resolving to the
claimed clamped degree 7; the bare string `"8"` IS clamped and resolves
to 71 (B4), so the two spellings are not treated identically. -/
theorem c2_scale_clamp_counterexample :
    c2Hc.resolveDegree (("scale.8").data) ⟨0, 0⟩ commonTime .harmony 0 = Option.none ∧
    c2Hc.resolveDegree (("8").data) ⟨0, 0⟩ commonTime .harmony 0 = some 71 := by
  constructor
  · decide
  · have h1 : (("chord.").data.isPrefixOf (("8").data)) = false := by decide
    have h2 : (("scale.").data.isPrefixOf (("8").data)) = false := by decide
    have h3 : pyIntParse (("8").data) = some 8 := by decide
    have h4 : mkScaleDegree (min 7 (max 1 8)) = some ⟨7, 0⟩ := by decide
    have h5 : pcToMidi (c2Hc.key.degreeToPitch ⟨7, 0⟩)
        (octaveForRegister (defaultRegisters .harmony) + 0) = 71 := by decide
    have h6 : clampToRegister 71 (48, 72) = 71 :=
      clampToRegister_of_inside (by norm_num) (by norm_num)
    simp only [HarmonyContext.resolveDegree, h1, h2, h3, Bool.false_eq_true, if_false,
      h4, Option.map_some', h5]
    show some (clampToRegister 71 (48, 72)) = some 71
    rw [h6]

/-- C2 (amended): clamping to [1, 7] happens only in the bare-integer
path.  `"scale.<n>"` (with `<n>` the decimal rendering of n) resolves
degree n when `1 ≤ n ≤ 7` and raises a `ValueError` (modelled `none`)
otherwise; a bare `"<n>"` resolves degree `min(7, max(1, n))` for every
integer n.  The two spellings agree exactly when `1 ≤ n ≤ 7`. -/
theorem c2_degree_clamping (hc : HarmonyContext) (pos : BeatPosition)
    (ts : TimeSignature) (role : LayerRole) (oct n : ℤ) :
    (hc.resolveDegree (("scale.").data ++ decimalRepr n) pos ts role oct =
      if 1 ≤ n ∧ n ≤ 7 then
        some (clampToRegister
          (pcToMidi (hc.key.degreeToPitch ⟨n, 0⟩)
            (octaveForRegister (defaultRegisters role) + oct))
          (defaultRegisters role))
      else Option.none) ∧
    (hc.resolveDegree (decimalRepr n) pos ts role oct =
      some (clampToRegister
        (pcToMidi (hc.key.degreeToPitch ⟨min 7 (max 1 n), 0⟩)
          (octaveForRegister (defaultRegisters role) + oct))
        (defaultRegisters role))) ∧
    (1 ≤ n → n ≤ 7 →
      hc.resolveDegree (("scale.").data ++ decimalRepr n) pos ts role oct =
        hc.resolveDegree (decimalRepr n) pos ts role oct) := by
  have hscale : hc.resolveDegree (("scale.").data ++ decimalRepr n) pos ts role oct =
      if 1 ≤ n ∧ n ≤ 7 then
        some (clampToRegister
          (pcToMidi (hc.key.degreeToPitch ⟨n, 0⟩)
            (octaveForRegister (defaultRegisters role) + oct))
          (defaultRegisters role))
      else Option.none := by
    have h1 := chord_not_pre_scale (decimalRepr n)
    have h2 := isPrefixOf_append_self (("scale.").data) (decimalRepr n)
    have h3 : (pySplitDot (("scale.").data ++ decimalRepr n)).getD 1 [] = decimalRepr n := by
      rw [pySplitDot_scale, pySplitDot_no_dot (decimalRepr_no_dot n)]
      rfl
    simp only [HarmonyContext.resolveDegree, h1, h2, Bool.false_eq_true, if_false, if_true,
      h3, pyIntParse_decimalRepr, Option.some_bind, mkScaleDegree]
    by_cases hr : 1 ≤ n ∧ n ≤ 7
    · simp [hr]
    · simp [hr]
  have hbare : hc.resolveDegree (decimalRepr n) pos ts role oct =
      some (clampToRegister
        (pcToMidi (hc.key.degreeToPitch ⟨min 7 (max 1 n), 0⟩)
          (octaveForRegister (defaultRegisters role) + oct))
        (defaultRegisters role)) := by
    have h1 := chord_not_pre_decimal n
    have h2 := scale_not_pre_decimal n
    have h4 : mkScaleDegree (min 7 (max 1 n)) = some ⟨min 7 (max 1 n), 0⟩ :=
      if_pos (by omega)
    simp only [HarmonyContext.resolveDegree, h1, h2, Bool.false_eq_true, if_false,
      pyIntParse_decimalRepr, h4, Option.map_some']
  refine ⟨hscale, hbare, fun hlo hhi => ?_⟩
  rw [hscale, hbare, if_pos ⟨hlo, hhi⟩]
  have hmin : min 7 (max 1 n) = n := by omega
  rw [hmin]

/-- C2 (witness): for the in-range degree 3 in C major, `"scale.3"` and
the bare `"3"` resolve identically. -/
theorem c2_degree_clamping_witness :
    c2Hc.resolveDegree (("scale.").data ++ decimalRepr 3) ⟨0, 0⟩ commonTime .harmony 0 =
      c2Hc.resolveDegree (decimalRepr 3) ⟨0, 0⟩ commonTime .harmony 0 :=
  (c2_degree_clamping c2Hc ⟨0, 0⟩ commonTime .harmony 0 3).2.2 (by norm_num) (by norm_num)

/-! ## Claim C4 — harmonic-rhythm chord cycling -/

/-- D natural minor. -/
def c4Key : Key := ⟨2, naturalMinorScale⟩

/-- Key D minor, progression `["i", "VI", "III", "VII"]`, harmonic
rhythm one bar (4 beats). -/
def c4Harmony : HarmonyContext :=
  ⟨c4Key, [("i").data, ("VI").data, ("III").data, ("VII").data], wholeDuration⟩

/-- C4: `chord_at` indexes the progression by
`floor(absoluteBeats / harmonicRhythmBeats) mod length`, and in D minor
with progression `[i, VI, III, VII]`, one chord per bar and 4/4 time,
bars 0–4 resolve to D minor, B♭ major, F major, C major and (wrapping)
D minor. -/
theorem c4_chord_cycling :
    (∀ (hc : HarmonyContext) (pos : BeatPosition) (ts : TimeSignature),
      hc.progression ≠ [] → 0 < hc.harmonic_rhythm.beats →
      hc.chordAt pos ts =
        romanParse (hc.progression.getD
          ((⌊pos.toBeats ts / hc.harmonic_rhythm.beats⌋ %
            (hc.progression.length : ℤ)).toNat) [])) ∧
    ((c4Harmony.chordAt ⟨0, 0⟩ commonTime).map (fun rn => rn.resolve c4Key) =
      some ⟨2, ChordQuality.MINOR, Option.none⟩) ∧
    ((c4Harmony.chordAt ⟨1, 0⟩ commonTime).map (fun rn => rn.resolve c4Key) =
      some ⟨10, ChordQuality.MAJOR, Option.none⟩) ∧
    ((c4Harmony.chordAt ⟨2, 0⟩ commonTime).map (fun rn => rn.resolve c4Key) =
      some ⟨5, ChordQuality.MAJOR, Option.none⟩) ∧
    ((c4Harmony.chordAt ⟨3, 0⟩ commonTime).map (fun rn => rn.resolve c4Key) =
      some ⟨0, ChordQuality.MAJOR, Option.none⟩) ∧
    ((c4Harmony.chordAt ⟨4, 0⟩ commonTime).map (fun rn => rn.resolve c4Key) =
      some ⟨2, ChordQuality.MINOR, Option.none⟩) := by
  have hform : ∀ (hc : HarmonyContext) (pos : BeatPosition) (ts : TimeSignature),
      hc.progression ≠ [] → 0 < hc.harmonic_rhythm.beats →
      hc.chordAt pos ts =
        romanParse (hc.progression.getD
          ((⌊pos.toBeats ts / hc.harmonic_rhythm.beats⌋ %
            (hc.progression.length : ℤ)).toNat) []) := by
    intro hc pos ts hne _hpos
    simp [HarmonyContext.chordAt, hne]
  have hbar : ∀ (b : ℤ) (i : ℕ),
      (⌊(BeatPosition.toBeats ⟨b, 0⟩ commonTime) / c4Harmony.harmonic_rhythm.beats⌋ %
        (c4Harmony.progression.length : ℤ)) = (i : ℤ) →
      c4Harmony.chordAt ⟨b, 0⟩ commonTime =
        romanParse (c4Harmony.progression.getD i []) := by
    intro b i hi
    rw [hform c4Harmony ⟨b, 0⟩ commonTime (by decide) (by norm_num [c4Harmony, wholeDuration]),
      hi]
    simp
  refine ⟨hform, ?_, ?_, ?_, ?_, ?_⟩
  · rw [hbar 0 0
      (by norm_num [BeatPosition.toBeats, commonTime, c4Harmony, wholeDuration,
        quarterDuration])]
    decide
  · rw [hbar 1 1
      (by norm_num [BeatPosition.toBeats, commonTime, c4Harmony, wholeDuration,
        quarterDuration])]
    decide
  · rw [hbar 2 2
      (by norm_num [BeatPosition.toBeats, commonTime, c4Harmony, wholeDuration,
        quarterDuration])]
    decide
  · rw [hbar 3 3
      (by norm_num [BeatPosition.toBeats, commonTime, c4Harmony, wholeDuration,
        quarterDuration])]
    decide
  · rw [hbar 4 0
      (by norm_num [BeatPosition.toBeats, commonTime, c4Harmony, wholeDuration,
        quarterDuration])]
    decide

/-- C4 (witness): the index formula applied at bar 0 of the D-minor
scenario. -/
theorem c4_chord_cycling_witness :
    c4Harmony.chordAt ⟨0, 0⟩ commonTime =
      romanParse (c4Harmony.progression.getD
        ((⌊(BeatPosition.toBeats ⟨0, 0⟩ commonTime) / c4Harmony.harmonic_rhythm.beats⌋ %
          (c4Harmony.progression.length : ℤ)).toNat) []) :=
  c4_chord_cycling.1 c4Harmony ⟨0, 0⟩ commonTime (by decide)
    (by norm_num [c4Harmony, wholeDuration])

/-! ## Claim C9 — Roman-numeral round trip -/

open RomanNumeral in
/-- The 7 diatonic major-key numerals and their seventh-chord forms. -/
def c9Numerals : List RomanNumeral :=
  [I, ii, iii, IV, V, vi, vii_dim,
   ⟨⟨1, 0⟩, ChordQuality.MAJOR_7, 0⟩, ⟨⟨2, 0⟩, ChordQuality.MINOR_7, 0⟩,
   ⟨⟨3, 0⟩, ChordQuality.MINOR_7, 0⟩, ⟨⟨4, 0⟩, ChordQuality.MAJOR_7, 0⟩,
   V7, ⟨⟨6, 0⟩, ChordQuality.MINOR_7, 0⟩, ⟨⟨7, 0⟩, ChordQuality.HALF_DIMINISHED_7, 0⟩]

/-- C9: for each of the 7 diatonic major-key numerals (I, ii, iii, IV,
V, vi, vii°) and each of their seventh-chord forms, parsing the string
rendering recovers the numeral — same degree, quality and inversion. -/
theorem c9_roman_roundtrip : ∀ rn ∈ c9Numerals, romanParse (romanToString rn) = some rn := by
  decide

/-- C9 (witness): the tonic triad round-trips. -/
theorem c9_roman_roundtrip_witness :
    romanParse (romanToString RomanNumeral.I) = some RomanNumeral.I :=
  c9_roman_roundtrip RomanNumeral.I (by decide)

/-! ## Claim C5 — canonicalization is idempotent and sorts -/

/-- The 5-field ordering key dominates its (start, channel, pitch)
prefix. -/
theorem noteKey3_le {a b : IRNote} (h : lexLe a.sortKey b.sortKey) :
    lexLe [a.start_ticks, a.channel, a.pitch] [b.start_ticks, b.channel, b.pitch] := by
  simp only [IRNote.sortKey, lexLe] at h ⊢
  tauto

/-- C5: `canonicalize` is idempotent, and in its output the notes are
non-decreasing in `(start_tick, channel, pitch)`, the section markers
are sorted by start tick, and the tempo events are sorted by tick. -/
theorem c5_canonicalize_idempotent (ir : ScoreIR) :
    ir.canonicalize.canonicalize = ir.canonicalize ∧
    ir.canonicalize.notes.Pairwise (fun a b =>
      lexLe [a.start_ticks, a.channel, a.pitch] [b.start_ticks, b.channel, b.pitch]) ∧
    ir.canonicalize.sections.Pairwise (fun a b => a.start_ticks ≤ b.start_ticks) ∧
    ir.canonicalize.tempo_events.Pairwise (fun a b => a.ticks ≤ b.ticks) := by
  refine ⟨?_, ?_, ?_, ?_⟩
  · simp [ScoreIR.canonicalize, pySorted_idem]
  · exact (pySorted_sorted IRNote.sortKey ir.notes).imp noteKey3_le
  · refine (pySorted_sorted (fun s => [s.start_ticks]) ir.sections).imp ?_
    intro a b h
    simp only [lexLe] at h
    omega
  · refine (pySorted_sorted (fun t => [t.ticks]) ir.tempo_events).imp ?_
    intro a b h
    simp only [lexLe] at h
    omega

/-! ## Claim C6 — Score IR serialization round trip -/

/-- The `IRNote.__post_init__` range invariant, holding for every note
a Python `ScoreIR` can contain. -/
def IRNote.valid (n : IRNote) : Prop :=
  0 ≤ n.pitch ∧ n.pitch ≤ 127 ∧ 0 ≤ n.velocity ∧ n.velocity ≤ 127 ∧
    0 ≤ n.channel ∧ n.channel ≤ 15 ∧ 0 ≤ n.start_ticks ∧ 0 ≤ n.duration_ticks

instance : DecidablePred IRNote.valid := fun n =>
  inferInstanceAs (Decidable (0 ≤ n.pitch ∧ n.pitch ≤ 127 ∧ 0 ≤ n.velocity ∧
    n.velocity ≤ 127 ∧ 0 ≤ n.channel ∧ n.channel ≤ 15 ∧ 0 ≤ n.start_ticks ∧
    0 ≤ n.duration_ticks))

/-- No provenance field is the (falsy) empty string. -/
def provenanceNonempty (n : IRNote) : Prop :=
  n.source_layer ≠ some [] ∧ n.source_pattern ≠ some [] ∧ n.source_section ≠ some []

instance : DecidablePred provenanceNonempty := fun n =>
  inferInstanceAs (Decidable (n.source_layer ≠ some [] ∧ n.source_pattern ≠ some [] ∧
    n.source_section ≠ some []))

/-- A valid note carrying the falsy empty-string provenance (legal for
a Python `IRNote`). -/
def c6NoteBad : IRNote :=
  { start_ticks := 0, channel := 0, pitch := 60, duration_ticks := 10, velocity := 100,
    source_layer := some [] }

theorem truthyStr_of_ne {o : Option PyStr} (h : o ≠ some []) : truthyStr o = o := by
  rcases o with _ | s
  · rfl
  · have hs : ¬ s.isEmpty = true := by
      intro he
      exact h (by rw [List.isEmpty_iff.mp he])
    simp [truthyStr, hs]

/-- A valid note with truthy provenance survives `to_dict`/`from_dict`
unchanged. -/
theorem note_roundtrip (n : IRNote) (hv : IRNote.valid n) (hp : provenanceNonempty n) :
    IRNote.fromDict (IRNote.toDict n) = some n := by
  obtain ⟨h1, h2, h3, h4, h5, h6, h7, h8⟩ := hv
  obtain ⟨p1, p2, p3⟩ := hp
  unfold IRNote.fromDict IRNote.toDict mkIRNote
  rw [if_pos ⟨h1, h2, h3, h4, h5, h6, h7, h8⟩]
  rw [truthyStr_of_ne p1, truthyStr_of_ne p2, truthyStr_of_ne p3]

theorem mapM_roundtrip :
    ∀ l : List IRNote, (∀ x ∈ l, IRNote.fromDict (IRNote.toDict x) = some x) →
      (l.map IRNote.toDict).mapM IRNote.fromDict = some l := by
  intro l h
  induction l with
  | nil => rfl
  | cons a t ih =>
    rw [List.map_cons, List.mapM_cons, h a (List.mem_cons_self a t),
      ih (fun x hx => h x (List.mem_cons_of_mem a hx))]
    rfl

/-- C6 (counterexample): a note whose `source_layer` is the empty
string — valid in a `ScoreIR`, but falsy — is serialized without the
key and read back as `None`, so `from_json(to_json(ir))` does not
reproduce that documented note field. -/
theorem c6_roundtrip_counterexample :
    (ScoreIR.fromDict (ScoreIR.toDict { notes := [c6NoteBad] })).map
      (fun ir => ir.notes.map (fun n => n.source_layer)) = some [Option.none] ∧
    (ScoreIR.canonicalize { notes := [c6NoteBad] }).notes.map
      (fun n => n.source_layer) = [some []] := by
  constructor
  · decide
  · decide

/-- C6 (amended): for every `ScoreIR` whose notes satisfy the
constructor range invariant and whose provenance strings are not the
empty string, `from_json(to_json(ir))` reproduces every header field
exactly and every note field-for-field, in canonical order — it equals
`ir.canonicalize`.  (Empty-string provenance collapses to `None` on the
way through; all other fields are lossless.) -/
theorem c6_roundtrip (ir : ScoreIR)
    (hvalid : ∀ n ∈ ir.notes, IRNote.valid n)
    (hprov : ∀ n ∈ ir.notes, provenanceNonempty n) :
    ScoreIR.fromDict (ScoreIR.toDict ir) = some ir.canonicalize := by
  have hmem : ∀ n ∈ ir.canonicalize.notes, n ∈ ir.notes := fun n hn =>
    (pySorted_perm IRNote.sortKey ir.notes).subset hn
  have hnotes : (ir.canonicalize.notes.map IRNote.toDict).mapM IRNote.fromDict =
      some ir.canonicalize.notes :=
    mapM_roundtrip _ (fun x hx => note_roundtrip x (hvalid x (hmem x hx)) (hprov x (hmem x hx)))
  unfold ScoreIR.fromDict ScoreIR.toDict
  rw [hnotes]
  rfl

def c6NoteW : IRNote :=
  { start_ticks := 0, channel := 1, pitch := 60, duration_ticks := 10, velocity := 100,
    source_layer := some (("m").data) }

def c6IrW : ScoreIR := { name := ("demo").data, notes := [c6NoteW] }

/-- C6 (witness): the amended round trip at a concrete one-note IR. -/
theorem c6_roundtrip_witness :
    ScoreIR.fromDict (ScoreIR.toDict c6IrW) = some c6IrW.canonicalize :=
  c6_roundtrip c6IrW (by decide) (by decide)

/-! ## Claim C7 — binary codec record ordering and delta times -/

/-- Default record for index lookups. -/
def dfltMsg : MidiMsg := ⟨0, false, 0, 0, 0⟩

theorem deltaEncode_map_snd : ∀ (l : List MidiMsg) (t0 : ℤ),
    (deltaEncode t0 l).map Prod.snd = l := by
  intro l
  induction l with
  | nil => intro t0; rfl
  | cons m rest ih =>
    intro t0
    rw [deltaEncode, List.map_cons, ih]

theorem deltaEncode_getD : ∀ (l : List MidiMsg) (t0 : ℤ) (i : ℕ), i < l.length →
    ((deltaEncode t0 l).getD i (0, dfltMsg)).1 =
      (l.getD i dfltMsg).tick - (if i = 0 then t0 else (l.getD (i - 1) dfltMsg).tick) := by
  intro l
  induction l with
  | nil =>
    intro t0 i hi
    simp at hi
  | cons m rest ih =>
    intro t0 i hi
    rcases i with _ | i
    · rfl
    · rw [deltaEncode]
      have h2 : ((((m.tick - t0, m) :: deltaEncode m.tick rest)).getD (i + 1) (0, dfltMsg)) =
          ((deltaEncode m.tick rest).getD i (0, dfltMsg)) := rfl
      rw [h2, ih m.tick i (by simpa using hi)]
      rcases i with _ | i
      · rfl
      · rfl

/-- C7: the emitted records are the stable sort of the per-event
note-on/note-off records by `(absoluteTick, recordIsNotNoteOff)`
(sorted, a permutation, and stable — per key value the input
subsequence is preserved); at an equal tick no note-on precedes a
note-off; and each record's delta time is its absolute tick minus the
previous record's absolute tick (the first, minus 0). -/
theorem c7_codec_sort_delta (events : List MidiEvent) :
    (sortedMessages events).Pairwise (fun a b => lexLe (msgKey a) (msgKey b)) ∧
    (sortedMessages events).Perm (midiMessages events) ∧
    (∀ v, (sortedMessages events).filter (fun m => decide (msgKey m = v)) =
      (midiMessages events).filter (fun m => decide (msgKey m = v))) ∧
    (sortedMessages events).Pairwise (fun a b =>
      a.tick = b.tick → a.isNoteOff = false → b.isNoteOff = false) ∧
    ((eventsToTrack events).map Prod.snd = sortedMessages events) ∧
    (∀ i, i < (sortedMessages events).length →
      ((eventsToTrack events).getD i (0, dfltMsg)).1 =
        ((sortedMessages events).getD i dfltMsg).tick -
          (if i = 0 then 0 else ((sortedMessages events).getD (i - 1) dfltMsg).tick)) := by
  refine ⟨pySorted_sorted _ _, pySorted_perm _ _, fun v => pySorted_stable _ _ v,
    ?_, deltaEncode_map_snd _ 0, fun i hi => deltaEncode_getD _ 0 i hi⟩
  refine (pySorted_sorted msgKey (midiMessages events)).imp ?_
  intro a b h ht ha
  by_cases hb : b.isNoteOff
  · exfalso
    simp [msgKey, lexLe, ha, ht, hb] at h
  · simpa using hb

def c7Events : List MidiEvent := [⟨60, 0, 480, 100, 0⟩, ⟨62, 480, 240, 90, 0⟩]

/-- C7 (witness): the second emitted record's delta equals the tick gap
to the first, on a concrete two-note input. -/
theorem c7_codec_sort_delta_witness :
    ((eventsToTrack c7Events).getD 1 (0, dfltMsg)).1 =
      ((sortedMessages c7Events).getD 1 dfltMsg).tick -
        ((sortedMessages c7Events).getD 0 dfltMsg).tick := by
  have h := (c7_codec_sort_delta c7Events).2.2.2.2.2 1 (by decide)
  simpa using h

/-! ## Claim C8 -- compile_section error behaviour -/

/-- A pattern whose only event names the out-of-range degree
`scale.8`: its content fails to compile (`ScaleDegree` raises). -/
def c8Pattern : Pattern :=
  { pitched := true
    template :=
      { bars := 1
        loop := true
        events := [{ beat := 0, duration := .num 1, degree := some (("scale.8").data) }] } }

/-- A registry holding only `c8Pattern` under the name `pat`. -/
def c8Reg : PyStr → Option Pattern :=
  fun r => if r = ("pat").data then some c8Pattern else Option.none

/-- A layer that assigns `c8Pattern` to the section `main`. -/
def c8Layer : Layer :=
  { name := ("m").data
    role := .melody
    channel := 0
    patterns := [(("p").data, { ref := ("pat").data })]
    arrangement := [(("main").data, some (("p").data))] }

/-- A one-section arrangement whose single layer plays `c8Pattern`. -/
def c8Arr : Arrangement :=
  { name := ("song").data
    context :=
      { key_str := ("C_major").data
        key := ⟨0, majorScale⟩
        tempo := 120
        time_sig := commonTime }
    sections := [{ name := ("main").data, bars := 1 }]
    layers := [(("m").data, c8Layer)] }

lemma opt_bind_map_congr {α β γ : Type} (x : Option α) (f₁ f₂ : α → Option β) (g : β → γ)
    (h : ∀ a, (f₁ a).map g = (f₂ a).map g) : (x.bind f₁).map g = (x.bind f₂).map g := by
  cases x
  · rfl
  · exact h _

/-- The notes collected by the per-section layer loop do not depend on
the `unique` flag nor on the `layers_compiled` / `layer_info`
accumulator components. -/
lemma layersLoop_allNotes_congr (reg : PyStr → Option Pattern) (arr : Arrangement)
    (sname : PyStr) (sbars : ℤ) (prog : List PyStr) (boff tpbar tpbeat : ℤ)
    (u₁ u₂ : Bool) (l : List (PyStr × Layer)) :
    ∀ (ns : List IRNote) (lc₁ lc₂ : List PyStr) (li₁ li₂ : List (PyStr × LayerInfo)),
      (layersLoop reg arr sname sbars prog boff tpbar tpbeat u₁ l ⟨ns, lc₁, li₁⟩).map
          SectionAccum.all_notes =
      (layersLoop reg arr sname sbars prog boff tpbar tpbeat u₂ l ⟨ns, lc₂, li₂⟩).map
          SectionAccum.all_notes := by
  induction l with
  | nil => intro ns lc₁ lc₂ li₁ li₂; rfl
  | cons kv rest ih =>
    intro ns lc₁ lc₂ li₁ li₂
    simp only [layersLoop, Option.bind_eq_bind]
    cases hm : kv.2.muted with
    | true =>
      simp only [layerStep, hm, if_true, Option.some_bind]
      exact ih ns lc₁ lc₂ li₁ li₂
    | false =>
      cases hs : hasSoloedLayers arr && !kv.2.solo with
      | true =>
        simp only [layerStep, hm, hs, Bool.false_eq_true, if_false, if_true, Option.some_bind]
        exact ih ns lc₁ lc₂ li₁ li₂
      | false =>
        cases hp : kv.2.getPatternForSection sname with
        | none =>
          simp only [layerStep, hm, hs, hp, Bool.false_eq_true, if_false, Option.some_bind]
          exact ih ns lc₁ lc₂ li₁ li₂
        | some pref =>
          cases hr : reg pref.ref with
          | none =>
            simp only [layerStep, hm, hs, hp, hr, Bool.false_eq_true, if_false,
              Option.some_bind]
            exact ih ns lc₁ lc₂ li₁ li₂
          | some pattern =>
            simp only [layerStep, hm, hs, hp, hr, Bool.false_eq_true, if_false,
              Option.bind_eq_bind, Option.bind_assoc, Option.pure_def, Option.some_bind]
            refine opt_bind_map_congr _ _ _ _ fun me => ?_
            refine opt_bind_map_congr _ _ _ _ fun notes => ?_
            exact ih (ns ++ notes) _ _ _ _

/-- C8 (main): missing section means `compile_section` raises; on a
single-section arrangement `compile_section` produces the same notes as
the full compile (bar offset 0); a missing pattern assignment or
registry entry makes the layer loop skip the layer silently. -/
theorem c8_compile_section (reg : PyStr → Option Pattern) (arr : Arrangement)
    (name : PyStr) (tpb : ℤ) :
    (arr.getSection name = Option.none → compileSection reg arr name tpb = Option.none) ∧
    (∀ sec : Section, arr.sections = [sec] → sec.name = name →
      (compileSection reg arr name tpb).map (fun r => r.score_ir.notes) =
        (compileArrangement reg arr tpb).map (fun r => r.score_ir.notes)) ∧
    (∀ (sname : PyStr) (sbars : ℤ) (prog : List PyStr) (boff tpbar tpbeat : ℤ)
        (u : Bool) (kv : PyStr × Layer) (acc : SectionAccum),
      (kv.2.getPatternForSection sname = Option.none ∨
        ∃ pr, kv.2.getPatternForSection sname = some pr ∧ reg pr.ref = Option.none) →
      layerStep reg arr sname sbars prog boff tpbar tpbeat u kv acc = some acc) := by
  refine ⟨?_, ?_, ?_⟩
  · intro h
    simp [compileSection, h]
  · intro sec hsecs hname
    subst hname
    have hget : arr.getSection sec.name = some sec := by
      simp [Arrangement.getSection, hsecs, List.find?]
    have h2 := congrArg (Option.map (fun ns2 => pySorted IRNote.sortKey ns2))
      (layersLoop_allNotes_congr reg arr sec.name sec.bars
        (arr.harmony.getProgressionForSection sec.name) 0
        (tpb * arr.context.time_sig.beatsPerBar) tpb false true arr.layers [] [] [] [] [])
    simp only [Option.map_map, Function.comp] at h2
    simp only [compileSection, compileArrangement, hget, hsecs, List.foldlM_cons,
      List.foldlM_nil, sectionStep, Option.bind_eq_bind, Option.some_bind,
      Option.pure_def, Option.bind_assoc, Option.map_bind, ScoreIR.canonicalize,
      Option.map_some]
    simp only [Function.comp, Option.map_some']
    simp only [Option.map_eq_bind, Function.comp] at h2
    exact h2
  · intro sname sbars prog boff tpbar tpbeat u kv acc h
    rcases h with hp | ⟨pr, hp, hr⟩
    · simp [layerStep, hp]
    · simp [layerStep, hp, hr]

/-- C8 counterexample to "raises iff the section is missing": the
section `main` exists in `c8Arr`, yet `compile_section` raises, because
the referenced pattern's content (`scale.8`) fails to compile and that
error propagates. -/
theorem c8_compile_section_counterexample :
    (c8Arr.getSection (("main").data)).isSome = true ∧
    compileSection c8Reg c8Arr (("main").data) 480 = Option.none := by
  constructor
  · decide
  · have hdeg : (⟨⟨0, majorScale⟩, [['I']], wholeDuration⟩ :
        HarmonyContext).resolveDegree (("scale.8").data) ⟨0, 0⟩ commonTime .melody 0 =
        Option.none := by decide
    have hpc : patternCompile c8Pattern
        ⟨⟨0, majorScale⟩, 120, commonTime, ⟨⟨0, majorScale⟩, [['I']], wholeDuration⟩,
          .melody, 0, 0, some []⟩ 1 480 = Option.none := by
      simp [patternCompile, compileGo, compileIteration, compileEvent, mkBeatPosition,
        resolveDuration, Pattern.getResolvedParams, c8Pattern, hdeg,
        List.mapM, List.mapM.loop]
    have hparams : c8Pattern.parameters = [] := rfl
    simp [compileSection, Arrangement.getSection, layersLoop, layerStep, hasSoloedLayers,
      Layer.getPatternForSection, parseHarmonicRhythm, HarmonyModel.getProgressionForSection,
      Pattern.getResolvedParams, dictUpdate, compileLayerPattern, c8Arr, c8Reg, c8Layer,
      List.find?, hparams, hpc]

/-- C8 witness: the three conjuncts exercised on `c8Arr`. -/
theorem c8_compile_section_witness :
    compileSection c8Reg c8Arr (("x").data) 480 = Option.none ∧
    (compileSection c8Reg c8Arr (("main").data) 480).map (fun r => r.score_ir.notes) =
      (compileArrangement c8Reg c8Arr 480).map (fun r => r.score_ir.notes) ∧
    layerStep c8Reg c8Arr (("zz").data) 1 [(("I").data)] 0 1920 480 false
      ((("m").data), c8Layer) ⟨[], [], []⟩ = some ⟨[], [], []⟩ :=
  ⟨(c8_compile_section c8Reg c8Arr (("x").data) 480).1 (by decide),
   (c8_compile_section c8Reg c8Arr (("main").data) 480).2.1
     ⟨("main").data, 1⟩ rfl rfl,
   (c8_compile_section c8Reg c8Arr (("zz").data) 480).2.2 (("zz").data) 1
     [(("I").data)] 0 1920 480 false ((("m").data), c8Layer) ⟨[], [], []⟩
     (Or.inl (by decide))⟩

end MusicSpec
